import Mathlib

/-!
Verification of `pandas/core/internals/concat.py` (block-manager concatenation).

The development shallowly embeds the concatenation planning and value-assembly
engine of the source file.  Machine values are represented symbolically
(`Val`), dtypes by a small faithful universe (`DType`), and arrays by lists of
rows.  External collaborators that the source file imports from other pandas
modules (promotion rules, NA detection, `make_na_array`, the C helper
`get_concat_blkno_indexers`, ...) are modelled from the specification and
marked as such in their doc comments; everything else is transcribed from the
source.
-/

set_option linter.unusedVariables false

/-- Numpy dtype kind characters used by the source: integer, unsigned, bool,
float, complex, datetime64 (M), timedelta64 (m), object, void. -/
inductive DKind
  | i | u | b | f | c | M | m | O | V
  deriving DecidableEq, Repr

/-- Scalar values held by arrays, represented symbolically.  `natV k` is the
kind-specific numpy not-a-time sentinel (`np.datetime64("NaT")` for kind M,
`np.timedelta64("NaT")` for kind m); `pdNaT` is the pandas `NaT` singleton;
`pdNA` the pandas `NA` singleton; `none_` the Python `None` token; `float`
carries an exact symbolic mantissa; `obj` is an opaque object token. -/
inductive Val
  | nan
  | natV (k : DKind)
  | pdNaT
  | pdNA
  | none_
  | int (z : Int)
  | float (z : Int)
  | bool_ (b : Bool)
  | obj (n : Nat)
  deriving DecidableEq, Repr

/-- Storage dtypes.  `np k sz` is a numpy dtype of kind `k` and itemsize `sz`;
`mask k sz` is a masked-array extension dtype (Int64/UInt*/Boolean/Float64,
`na_value = pd.NA`); `sparse sz` is a sparse extension dtype with float
subtype (`na_value = np.nan`).  Both extension families are 1d-only. -/
inductive DType
  | np (k : DKind) (sz : Nat)
  | mask (k : DKind) (sz : Nat)
  | sparse (sz : Nat)
  deriving DecidableEq, Repr

def DType.kind : DType → DKind
  | .np k _ => k
  | .mask k _ => k
  | .sparse _ => .f

/-- `isinstance(dtype, ExtensionDtype)`. -/
def DType.isExt : DType → Bool
  | .np _ _ => false
  | .mask _ _ => true
  | .sparse _ => true

/-- `isinstance(dtype, SparseDtype)`. -/
def DType.isSparse : DType → Bool
  | .sparse _ => true
  | _ => false

def DType.isNumpy : DType → Bool
  | .np _ _ => true
  | _ => false

def DType.isMask : DType → Bool
  | .mask _ _ => true
  | _ => false

/-- Modelled from the spec: `is_1d_only_ea_dtype` — extension dtypes backed by
one-dimensional arrays.  All extension dtypes in this universe are 1d-only. -/
def is_1d_only_ea_dtype (d : DType) : Bool := d.isExt

/-- Declared `na_value` sentinel of an extension dtype (`pd.NA` for masked
dtypes, `np.nan` for sparse — the `ExtensionDtype.na_value` default). -/
def DType.extNaValue : DType → Val
  | .mask _ _ => .pdNA
  | _ => .nan

/-- Modelled from the spec: per-kind missing-value detection collaborator
(`isna` on scalars). -/
def isna : Val → Bool
  | .nan | .natV _ | .pdNaT | .pdNA | .none_ => true
  | _ => false

/-- `lib.is_scalar`: every `Val` in this embedding is a scalar. -/
def isScalarV (_ : Val) : Bool := true

/-- Modelled from pandas `Block._can_hold_na`: numpy dtypes hold missing
values iff their kind is not in "iub"; extension dtypes in this universe all
hold a missing marker. -/
def DType.canHoldNa : DType → Bool
  | .np .i _ | .np .u _ | .np .b _ => false
  | .np _ _ => true
  | .mask _ _ => true
  | .sparse _ => true

/-- `needs_i8_conversion`: datetime64/timedelta64 kinds. -/
def needs_i8_conversion (d : DType) : Bool :=
  match d.kind with
  | .M | .m => true
  | _ => false

/-- Modelled from pandas `Block.fill_value` (`na_value_for_dtype` with
`compat=False`): `NaT` for datetimelike numpy blocks, the declared sentinel
for extension blocks, `np.nan` otherwise. -/
def DType.fillValue : DType → Val
  | .np .M _ | .np .m _ => .pdNaT
  | .mask _ _ => .pdNA
  | _ => .nan

/-- Modelled from the spec: `is_valid_na_for_dtype` — whether a missing scalar
is individually compatible with a target dtype (a not-a-time marker is
incompatible with a differently-kinded temporal target; temporal markers are
incompatible with numeric targets). -/
def is_valid_na_for_dtype (v : Val) (d : DType) : Bool :=
  if ¬ (isScalarV v ∧ isna v) then false
  else
    match d.kind with
    | .M => decide (v ≠ .natV .m)
    | .m => decide (v ≠ .natV .M)
    | .i | .u | .f | .c =>
        decide (v ≠ .pdNaT) && decide (v ≠ .natV .M) && decide (v ≠ .natV .m)
    | .b => true
    | .O => true
    | .V => decide (v ≠ .natV .M) && decide (v ≠ .natV .m)

/-- Modelled from the spec: value-level behaviour of `cast array to target
type` for the casts exercised here.  Booleans become 0/1 under numeric
targets, integers widen to floats under floating targets, a masked `NA` cast
to a sparse (nan-filled) target materializes as `nan`; all other values are
representation-stable under the casts that occur. -/
def castVal (v : Val) (t : DType) : Val :=
  match v with
  | .bool_ b =>
      match t.kind with
      | .i | .u => .int (if b then 1 else 0)
      | .f | .c => .float (if b then 1 else 0)
      | _ => v
  | .int z =>
      match t.kind with
      | .f | .c => .float z
      | _ => v
  | .pdNA =>
      match t with
      | .sparse _ => .nan
      | _ => v
  | _ => v

/-- Numeric normalization used to state element-wise identity of results in
the Python sense (`True == 1 == 1.0`): booleans and integers are read as the
floats they compare equal to. -/
def normVal : Val → Val
  | .bool_ b => .float (if b then 1 else 0)
  | .int z => .float z
  | v => v

/-- Modelled from the spec: pairwise numpy promotion (`np.promote_types` /
`np.find_common_type`), simplified to the lattice this universe needs.
Mixing datetimelike or void kinds with anything else falls back to object,
as pandas does. -/
def promote2 (a b : DType) : DType :=
  if a = b then a
  else
    match a, b with
    | .np k1 s1, .np k2 s2 =>
        if k1 = .O ∨ k2 = .O then .np .O 8
        else if k1 = k2 then .np k1 (max s1 s2)
        else
          match k1, k2 with
          | .b, .i => .np .i s2
          | .i, .b => .np .i s1
          | .b, .u => .np .u s2
          | .u, .b => .np .u s1
          | .b, .f => .np .f s2
          | .f, .b => .np .f s1
          | .b, .c => .np .c s2
          | .c, .b => .np .c s1
          | .i, .u => if s2 < s1 then .np .i s1
                      else if s2 < 8 then .np .i (2 * s2) else .np .f 8
          | .u, .i => if s1 < s2 then .np .i s2
                      else if s1 < 8 then .np .i (2 * s1) else .np .f 8
          | .i, .f => .np .f (max s1 s2)
          | .f, .i => .np .f (max s1 s2)
          | .u, .f => .np .f (max s1 s2)
          | .f, .u => .np .f (max s1 s2)
          | .i, .c => .np .c (max s1 s2)
          | .c, .i => .np .c (max s1 s2)
          | .u, .c => .np .c (max s1 s2)
          | .c, .u => .np .c (max s1 s2)
          | .f, .c => .np .c (max s1 s2)
          | .c, .f => .np .c (max s1 s2)
          | _, _ => .np .O 8
    | _, _ => .np .O 8

/-- Promotion of a nonempty list of numpy dtypes (`np.find_common_type`),
as used by `np.concatenate`. -/
def npPromoteList (ds : List DType) : DType :=
  match ds with
  | [] => .np .O 8
  | d :: rest => rest.foldl promote2 d

def DType.toNumpy : DType → DType
  | .np k s => .np k s
  | .mask k s => .np k s
  | .sparse s => .np .f s

def DKind.isNumericLike : DKind → Bool
  | .i | .u | .b | .f => true
  | _ => false

/-- Masked-family promotion: join the underlying numpy dtypes and re-wrap in
the masked family when the join stays numeric (pandas `BaseMaskedDtype`
`_get_common_dtype`); otherwise fall back to object. -/
def maskJoin (ds : List DType) : DType :=
  match npPromoteList (ds.map DType.toNumpy) with
  | .np k s => if k.isNumericLike then .mask k s else .np .O 8
  | _ => .np .O 8

/-- Modelled from the spec: the external promotion-rule service
`find_common_type` — the smallest common type able to represent every input.
Identical inputs are returned unchanged; all-numpy inputs use numpy
promotion; a sparse participant absorbs the result into the sparse family
(with missing values represented by `nan`); masked participants promote
within the masked family; anything else falls back to object. -/
def find_common_type (ds : List DType) : DType :=
  match ds with
  | [] => .np .O 8
  | d :: rest =>
      if rest.all (fun x => decide (x = d)) then d
      else if (d :: rest).all DType.isNumpy then npPromoteList (d :: rest)
      else if (d :: rest).any DType.isSparse then .sparse 8
      else if (d :: rest).all (fun x => x.isNumpy || x.isMask) then
        maskJoin (d :: rest)
      else .np .O 8

/-- Modelled from the spec: `ensure_dtype_can_hold_na` — widen a type to one
capable of holding a missing marker (non-nullable integers widen to float64,
booleans to object; extension dtypes in this universe already hold NA). -/
def ensure_dtype_can_hold_na (d : DType) : DType :=
  match d with
  | .np .b _ => .np .O 8
  | .np .i _ => .np .f 8
  | .np .u _ => .np .f 8
  | _ => d

/-- Array payloads: 1-dimensional (extension arrays) or 2-dimensional, stored
as the list of axis-0 slices (a block's axis 0 ranges over the columns it
covers, axis 1 over the rows). -/
inductive ArrData
  | d1 (xs : List Val)
  | d2 (xss : List (List Val))
  deriving DecidableEq, Repr

/-- Total number of elements (`values.size`). -/
def ArrData.size : ArrData → Nat
  | .d1 xs => xs.length
  | .d2 xss => (xss.map List.length).sum

/-- All elements in C order (`values.ravel(order="K")` on the contiguous
arrays this engine handles). -/
def ArrData.elems : ArrData → List Val
  | .d1 xs => xs
  | .d2 xss => xss.flatten

def ArrData.mapVals (f : Val → Val) : ArrData → ArrData
  | .d1 xs => .d1 (xs.map f)
  | .d2 xss => .d2 (xss.map (List.map f))

/-- Axis-0 slices; a 1-dimensional array is a single slice. -/
def ArrData.rows : ArrData → List (List Val)
  | .d1 xs => [xs]
  | .d2 xss => xss

/-- An array value together with its dtype. -/
structure Arr where
  dtype : DType
  data : ArrData
  deriving DecidableEq, Repr

def castArr (t : DType) (a : Arr) : Arr :=
  ⟨t, a.data.mapVals (fun v => castVal v t)⟩

/-- Concatenation of 2-d arrays along axis 1: axis-0 slices are joined
pairwise. -/
def zipApp2 (a b : List (List Val)) : List (List Val) :=
  List.zipWith (fun r s => r ++ s) a b

def concatD2 (xss : List (List (List Val))) : List (List Val) :=
  match xss with
  | [] => []
  | h :: t => t.foldl zipApp2 h

/-- Modelled from the spec: `native_concat` (`np.concatenate(vals, axis=1)`)
— promote all inputs to the numpy common type, cast, and join axis-0
slices. -/
def npConcatenate (arrs : List Arr) : Arr :=
  let target := npPromoteList (arrs.map Arr.dtype)
  let casted := arrs.map (castArr target)
  ⟨target, .d2 (concatD2 (casted.map (fun a => a.data.rows)))⟩

/-- Modelled from the spec: `generic_concat` (`concat_compat`) — find the
common type of the inputs, cast every input to it, then concatenate; with
`ea_compat_axis` (or along axis 0) extension arrays are concatenated
one-dimensionally.  (pandas' `concat_compat` ignores empty inputs when
choosing the target dtype only when `axis == 0` and `ea_compat_axis` is
false, a combination that occurs at none of this module's call sites, so
every call made here determines the target from all inputs, as modelled.) -/
def concat_compat (arrs : List Arr) (axis : Nat) (ea_compat_axis : Bool) :
    Arr :=
  let target := find_common_type (arrs.map Arr.dtype)
  let casted := arrs.map (castArr target)
  if ea_compat_axis ∨ axis = 0 then
    ⟨target, .d1 (casted.map (fun a => a.data.elems)).flatten⟩
  else
    ⟨target, .d2 (concatD2 (casted.map (fun a => a.data.rows)))⟩

/-- `ensure_block_shape(values, ndim=2)`. -/
def ensure_block_shape2 (a : Arr) : Arr :=
  match a.data with
  | .d1 xs => ⟨a.dtype, .d2 [xs]⟩
  | .d2 _ => a

/-- Modelled from the spec: `make_na_array(dtype, shape, fill_value)` —
synthesize a fresh all-missing array of the given dtype, shape and fill
value (1-dimensional for 1d-only extension dtypes). -/
def make_na_array (d : DType) (shape : Nat × Nat) (fill : Val) : Arr :=
  if is_1d_only_ea_dtype d then ⟨d, .d1 (List.replicate shape.2 fill)⟩
  else ⟨d, .d2 (List.replicate shape.1 (List.replicate shape.2 fill))⟩

/-- Runtime block classes relevant to `type(ju.block) is type(first)`
(pandas `get_block_type`): plain numpy blocks, object blocks,
datetimelike blocks, extension blocks. -/
inductive BlockCls
  | numpyCls | objectCls | datetimeLikeCls | extensionCls
  deriving DecidableEq, Repr

/-- Modelled from pandas `get_block_type`: the runtime block class is a
function of the dtype. -/
def blockClsOf (d : DType) : BlockCls :=
  match d with
  | .mask _ _ => .extensionCls
  | .sparse _ => .extensionCls
  | .np .M _ => .datetimeLikeCls
  | .np .m _ => .datetimeLikeCls
  | .np .O _ => .objectCls
  | .np _ _ => .numpyCls

/-- A columnar block: its value array and the output-column positions it
covers (`mgr_locs`). -/
structure Block where
  values : Arr
  mgrLocs : List Nat
  deriving DecidableEq, Repr

def Block.dtype (b : Block) : DType := b.values.dtype

/-- `Block.shape`: `(number of covered columns, number of rows)`; blocks
backed by 1d-only extension arrays cover a single column. -/
def Block.shape (b : Block) : Nat × Nat :=
  match b.values.data with
  | .d1 xs => (1, xs.length)
  | .d2 xss => (xss.length, (xss.headD []).length)

def Block.is_extension (b : Block) : Bool := b.dtype.isExt

def Block.cls (b : Block) : BlockCls := blockClsOf b.dtype

/-- `Block._can_consolidate`: false exactly for extension blocks. -/
def Block.can_consolidate (b : Block) : Bool := ! b.dtype.isExt

/-- `Block.is_bool`: the values are a plain numpy bool array. -/
def Block.is_bool (b : Block) : Bool :=
  match b.dtype with
  | .np .b _ => true
  | _ => false

def Block.fill_value (b : Block) : Val := b.dtype.fillValue

def Block.can_hold_na (b : Block) : Bool := b.dtype.canHoldNa

/-- `Block.astype(np.dtype("object"))`: object casting keeps each element's
identity. -/
def Block.astypeObject (b : Block) : Arr := ⟨.np .O 8, b.values.data⟩

def defaultBlock : Block := ⟨⟨.np .V 0, .d2 []⟩, []⟩

instance : Inhabited Block := ⟨defaultBlock⟩

/-- `JoinUnit`: one source table's contribution to one output column group. -/
structure JoinUnit where
  block : Block
  deriving DecidableEq, Repr

instance : Inhabited JoinUnit := ⟨⟨defaultBlock⟩⟩

/-- `isna_all` over a 1-d chunk: every element is missing. -/
def isna_all (xs : List Val) : Bool := xs.all isna

/-- `JoinUnit.is_na` (source lines 413-440): void-kind (proxy) blocks are
all-missing; blocks that cannot hold NA are not; empty blocks are; sparse
blocks (past the emptiness check) are not; otherwise the first element is
checked as a missing scalar and then every element must be missing.  In
Python the first-element accesses cannot fail because the size-zero case
returned earlier; the unreachable `none` arms return `false`. -/
def JoinUnit.is_na (u : JoinUnit) : Bool :=
  let blk := u.block
  if blk.dtype.kind = .V then true
  else if ¬ blk.can_hold_na then false
  else if blk.values.data.size = 0 then true
  else if blk.values.dtype.isSparse then false
  else
    match blk.values.data with
    | .d1 xs =>
        match xs.head? with
        | none => false
        | some v => isScalarV v && isna v && isna_all xs
    | .d2 xss =>
        match (xss.head?.bind List.head?) with
        | none => false
        | some v => isScalarV v && isna v && xss.all (fun row => isna_all row)

/-- `JoinUnit._is_valid_na_for` (source lines 381-411). -/
def JoinUnit.isValidNaFor (u : JoinUnit) (dtype : DType) : Bool :=
  if ¬ u.is_na then false
  else
    let blk := u.block
    if blk.dtype.kind = .V then true
    else if blk.dtype = .np .O 8 then
      (blk.values.data.elems.all (fun x => is_valid_na_for_dtype x dtype))
    else
      let na_value := blk.fill_value
      if na_value = .pdNaT ∧ ¬ (blk.dtype = dtype) then false
      else if na_value = .pdNA ∧ needs_i8_conversion dtype then false
      else is_valid_na_for_dtype na_value dtype

/-- `JoinUnit.get_reindexed_values` (source lines 442-483).  The Python
`upcasted_na is None` test is the `Val.none_` token; views are identities in
this value model. -/
def JoinUnit.get_reindexed_values (u : JoinUnit) (empty_dtype : DType)
    (upcasted_na : Val) : Arr :=
  if upcasted_na = .none_ ∧ ¬ (u.block.dtype.kind = .V) then
    u.block.values
  else
    if u.isValidNaFor empty_dtype then
      let fill_value :=
        if u.block.dtype = .np .O 8 then
          match u.block.values.data.elems.head? with
          | some .none_ => Val.none_
          | _ => upcasted_na
        else upcasted_na
      make_na_array empty_dtype u.block.shape fill_value
    else if ¬ u.block.can_consolidate then
      u.block.values
    else if u.block.is_bool then
      u.block.astypeObject
    else
      u.block.values

/-- `_dtype_to_na_value` (source lines 532-552); `Option.none` models the
`NotImplementedError` raise, `some Val.none_` the Python `None` return. -/
def _dtype_to_na_value (dtype : DType) (has_none_blocks : Bool) : Option Val :=
  if dtype.isExt then some dtype.extNaValue
  else
    match dtype.kind with
    | .m => some (.natV .m)
    | .M => some (.natV .M)
    | .f => some .nan
    | .c => some .nan
    | .b => some .none_
    | .i => if ¬ has_none_blocks then some .none_ else some .nan
    | .u => if ¬ has_none_blocks then some .none_ else some .nan
    | .O => some .nan
    | .V => none

/-- `lib.dtypes_all_equal`. -/
def dtypes_all_equal (ds : List DType) : Bool :=
  match ds with
  | [] => true
  | d :: rest => rest.all (fun x => decide (x = d))

/-- `_get_empty_dtype` (source lines 555-584).  Python indexes
`join_units[0]` and so cannot be called on an empty list; the embedding
totalizes with `headD`. -/
def _get_empty_dtype (join_units : List JoinUnit) : DType :=
  if join_units.length = 1 then (join_units.headD default).block.dtype
  else
      if dtypes_all_equal (join_units.map (fun ju => ju.block.dtype)) then
        (join_units.headD default).block.dtype
      else
        let has_none_blocks :=
          join_units.any (fun unit => unit.block.dtype.kind = .V)
        let dtypes :=
          (join_units.filter (fun unit => ¬ unit.is_na)).map
            (fun unit => unit.block.dtype)
        let dtypes :=
          if dtypes.isEmpty then
            (join_units.filter (fun unit => ¬ (unit.block.dtype.kind = .V))).map
              (fun unit => unit.block.dtype)
          else dtypes
        let dtype := find_common_type dtypes
        if has_none_blocks then ensure_dtype_can_hold_na dtype else dtype

def DKind.isIUB : DKind → Bool
  | .i | .u | .b => true
  | _ => false

/-- `_is_uniform_join_units` (source lines 587-616). -/
def _is_uniform_join_units (join_units : List JoinUnit) : Bool :=
  let first := (join_units.headD default).block
  if first.dtype.kind = .V then false
  else
    join_units.all (fun ju => decide (ju.block.cls = first.cls))
    && join_units.all (fun ju =>
        decide (ju.block.dtype = first.dtype) || ju.block.dtype.kind.isIUB)
    && join_units.all (fun ju => ! ju.is_na || ju.block.is_extension)
    && decide (1 < join_units.length)

/-- `_concatenate_join_units` (source lines 486-529); `Option.none`
propagates the `NotImplementedError` of `_dtype_to_na_value`.  The `copy`
flag only affects aliasing, which the value model does not observe. -/
def _concatenate_join_units (join_units : List JoinUnit) (copy : Bool) :
    Option Arr :=
  let empty_dtype := _get_empty_dtype join_units
  let has_none_blocks :=
    join_units.any (fun unit => unit.block.dtype.kind = .V)
  match _dtype_to_na_value empty_dtype has_none_blocks with
  | none => none
  | some upcasted_na =>
      let to_concat := join_units.map
        (fun ju => ju.get_reindexed_values empty_dtype upcasted_na)
      match to_concat with
      | [single] => some single
      | _ =>
          if to_concat.any (fun t => is_1d_only_ea_dtype t.dtype) then
            let to_concat := to_concat.map (fun t =>
              if is_1d_only_ea_dtype t.dtype then t
              else ⟨t.dtype, .d1 (t.data.rows.headD [])⟩)
            some (ensure_block_shape2 (concat_compat to_concat 0 true))
          else
            some (concat_compat to_concat 1 false)

/-- The uniform fast path of `concatenate_managers` (source lines 220-241):
native numpy concatenation for non-extension blocks, same-family extension
concatenation (plus reshape) for 1d-only extension blocks.
`ensure_wrapped_if_datetimelike` is the identity on values. -/
def fastPathValues (join_units : List JoinUnit) : Arr :=
  let blk := (join_units.headD default).block
  let vals := join_units.map (fun ju => ju.block.values)
  if ¬ blk.is_extension then
    npConcatenate vals
  else if is_1d_only_ea_dtype blk.dtype then
    ensure_block_shape2 (concat_compat vals 1 true)
  else
    concat_compat vals 1 false

/-- A block manager: blocks plus axis label sequences (`axes[0]` are the
column items, `axes[1]` the row labels); labels are opaque tokens. -/
structure BlockManager where
  blocks : List Block
  axes : List (List Nat)
  deriving DecidableEq, Repr

instance : Inhabited BlockManager := ⟨⟨[], []⟩⟩

def BlockManager.items (m : BlockManager) : List Nat := m.axes.headD []

/-- `mgr.shape[0] = len(mgr.items)`: the number of columns. -/
def BlockManager.ncols (m : BlockManager) : Nat := m.items.length

/-- `mgr.blknos`: for every column position, the index of the block that
supplies it. -/
def BlockManager.blknos (m : BlockManager) : List Nat :=
  (List.range m.ncols).map (fun p => m.blocks.findIdx (fun b => b.mgrLocs.contains p))

/-- Maximal runs of equal adjacent entries, each tagged with its start
position and length. -/
def runsFrom (vs : List (List Nat)) (start : Nat) : List (List Nat × Nat × Nat) :=
  match vs with
  | [] => []
  | v :: rest =>
      let k := (rest.takeWhile (fun x => decide (x = v))).length + 1
      (v, start, k) :: runsFrom (rest.drop (k - 1)) (start + k)
termination_by vs.length
decreasing_by
  simp only [List.length_drop, List.length_cons]
  omega

/-- Modelled from the spec: `libinternals.get_concat_blkno_indexers` —
partition the output-column axis into maximal runs on which every manager's
block index is constant; each run is returned with its per-manager block
index vector and its (slice-like) placement. -/
def get_concat_blkno_indexers (blknos_list : List (List Nat)) :
    List (List Nat × Nat × Nat) :=
  let n := (blknos_list.headD []).length
  let cols := (List.range n).map (fun p => blknos_list.map (fun bl => bl.getD p 0))
  runsFrom cols 0

/-- Whether `mgr_locs` is slice-like with step 1. -/
def isContigSlice (locs : List Nat) : Bool :=
  decide (locs = List.range' (locs.headD 0) locs.length)

def sliceRows (d : ArrData) (idx : List Nat) : ArrData :=
  match d with
  | .d1 xs => .d1 xs
  | .d2 xss => .d2 (idx.map (fun i => xss.getD i []))

/-- `_get_block_for_concat_plan` (source lines 349-371): reuse the block when
the run covers it exactly and contiguously, otherwise slice out the covered
columns. -/
def _get_block_for_concat_plan (mgr : BlockManager) (bp : Nat × Nat)
    (blkno : Nat) (max_len : Nat) : Block :=
  let blk := mgr.blocks.getD blkno defaultBlock
  if bp.2 = blk.mgrLocs.length ∧ isContigSlice blk.mgrLocs then blk
  else
    let locIdx := (List.range bp.2).map (fun j => blk.mgrLocs.indexOf (bp.1 + j))
    { values := ⟨blk.values.dtype, sliceRows blk.values.data locIdx⟩,
      mgrLocs := List.range' bp.1 bp.2 }

/-- `_get_combined_plan` (source lines 323-346). -/
def _get_combined_plan (mgrs : List BlockManager) :
    List ((Nat × Nat) × List JoinUnit) :=
  let max_len := (mgrs.headD default).ncols
  let blknos_list := mgrs.map BlockManager.blknos
  let pairs := get_concat_blkno_indexers blknos_list
  pairs.map (fun pr =>
    let bp := pr.2
    ((bp.1, bp.2), (mgrs.zip pr.1).map (fun mb =>
      JoinUnit.mk (_get_block_for_concat_plan mb.1 (bp.1, bp.2) mb.2 max_len))))

def shiftBlock (off : Nat) (b : Block) : Block :=
  { b with mgrLocs := b.mgrLocs.map (fun p => p + off) }

def axis0Blocks : List BlockManager → Nat → List Block
  | [], _ => []
  | m :: rest, offset =>
      (m.blocks.map (shiftBlock offset)) ++ axis0Blocks rest (offset + m.ncols)

/-- `_concat_managers_axis0` (source lines 256-291), for inputs already
column-aligned (`_maybe_reindex_columns_na_proxy` is the external
reindexing collaborator and is the identity on aligned inputs).  The
copy-versus-slice choices only affect aliasing, which the value model does
not observe; `nb._mgr_locs = nb._mgr_locs.add(offset)` is the placement
shift, with `offset` accumulating `len(mgr.items)` over preceding
managers. -/
def _concat_managers_axis0 (mgrs : List BlockManager)
    (axes : List (List Nat)) : BlockManager :=
  ⟨axis0Blocks mgrs 0, axes⟩

/-- Failure conditions of `concatenate_managers`: `emptyInput` models the
`IndexError` raised by `mgrs_indexers[0][0]` on an empty input list (the
spec's `EmptyInput` condition); `notImplemented` models the
`NotImplementedError` of `_dtype_to_na_value`. -/
inductive ConcatErr
  | emptyInput
  | notImplemented
  deriving DecidableEq, Repr

/-- Body of the per-group loop of `concatenate_managers` (source lines
209-251): single-unit pass-through, uniform fast path, or the generic mixed
path; the resulting block is placed at the group's placement. -/
def blockForGroup (pr : (Nat × Nat) × List JoinUnit) (copy : Bool) :
    Option Block :=
  let bp := pr.1
  let join_units := pr.2
  let vOpt : Option Arr :=
    match join_units with
    | [unit] => some unit.block.values
    | _ =>
        if _is_uniform_join_units join_units then
          some (fastPathValues join_units)
        else
          _concatenate_join_units join_units copy
  vOpt.map (fun v => Block.mk v (List.range' bp.1 bp.2))

def planBlocks (plan : List ((Nat × Nat) × List JoinUnit)) (copy : Bool) :
    Option (List Block) :=
  match plan with
  | [] => some []
  | pr :: rest =>
      match blockForGroup pr copy, planBlocks rest copy with
      | some b, some bs => some (b :: bs)
      | _, _ => none

/-- `concatenate_managers` (source lines 173-253) for BlockManager inputs
whose columns are already aligned (indexer maps empty; reindexing is the
external collaborator).  On an empty input list Python fails at the very
first subscript `mgrs_indexers[0][0]`. -/
def concatenate_managers (mgrs : List BlockManager) (axes : List (List Nat))
    (concat_axis : Nat) (copy : Bool) : Except ConcatErr BlockManager :=
  match mgrs with
  | [] => .error .emptyInput
  | _ =>
      if concat_axis = 0 then .ok (_concat_managers_axis0 mgrs axes)
      else
        match planBlocks (_get_combined_plan mgrs) copy with
        | none => .error .notImplemented
        | some blocks => .ok ⟨blocks, axes⟩

/-! Claim-side formulations and theorems. -/

/-- The fill-value-by-type table exactly as the spec states it: declared
sentinel for extension dtypes, kind-specific not-a-time for temporal kinds,
not-a-number for floating/complex, the generic null token for boolean, the
generic null token for integer kinds without a proxy participant and
not-a-number with one, not-a-number for object, and failure otherwise. -/
def specNaFill (dtype : DType) (proxy_participated : Bool) : Option Val :=
  if dtype.isExt then some dtype.extNaValue
  else
    match dtype.kind with
    | .M => some (.natV .M)
    | .m => some (.natV .m)
    | .f => some .nan
    | .c => some .nan
    | .b => some .none_
    | .i => if proxy_participated then some .nan else some .none_
    | .u => if proxy_participated then some .nan else some .none_
    | .O => some .nan
    | .V => none

/-- C2: `_dtype_to_na_value` returns exactly the fill value of the spec's
table for every target dtype and proxy-participation flag, and fails (rather
than returning a value) on any other dtype kind. -/
theorem dtype_to_na_value_matches_table (dtype : DType)
    (has_none_blocks : Bool) :
    _dtype_to_na_value dtype has_none_blocks = specNaFill dtype has_none_blocks := by
  cases dtype with
  | np k sz =>
      cases k <;> cases has_none_blocks <;>
        simp [_dtype_to_na_value, specNaFill, DType.isExt, DType.kind]
  | mask k sz =>
      simp [_dtype_to_na_value, specNaFill, DType.isExt]
  | sparse sz =>
      simp [_dtype_to_na_value, specNaFill, DType.isExt]

/-- The uniformity conditions exactly as the spec lists them: more than one
unit, no proxy unit, identical runtime block classes, dtypes equal to the
first or of integer/unsigned/boolean kind, and no all-missing unit except
extension-array blocks. -/
def specUniform (join_units : List JoinUnit) : Bool :=
  let first := (join_units.headD default).block
  decide (1 < join_units.length)
  && join_units.all (fun ju => ! (decide (ju.block.dtype.kind = DKind.V)))
  && join_units.all (fun ju => decide (ju.block.cls = first.cls))
  && join_units.all (fun ju =>
      decide (ju.block.dtype = first.dtype) || ju.block.dtype.kind.isIUB)
  && join_units.all (fun ju => ! ju.is_na || ju.block.is_extension)

theorem isIUB_ne_V {k : DKind} (h : k.isIUB = true) : ¬ (k = DKind.V) := by
  cases k <;> simp_all [DKind.isIUB]

/-- C3: `_is_uniform_join_units` returns true if and only if the spec's five
uniformity conditions all hold. -/
theorem is_uniform_join_units_spec (join_units : List JoinUnit) :
    _is_uniform_join_units join_units = specUniform join_units := by
  unfold _is_uniform_join_units specUniform
  by_cases hV : ((join_units.headD default).block.dtype.kind = DKind.V)
  · simp only [hV, if_pos rfl, if_true]
    cases join_units with
    | nil => simp
    | cons a t =>
        have : a.block.dtype.kind = DKind.V := by simpa using hV
        simp [List.all_cons, this]
  · rw [if_neg hV, Bool.eq_iff_iff]
    simp only [Bool.and_eq_true, List.all_eq_true, Bool.or_eq_true,
      decide_eq_true_eq, Bool.not_eq_eq_eq_not, Bool.not_true,
      decide_eq_false_iff_not, and_assoc]
    constructor
    · rintro ⟨hcls, hdt, hna, hlen⟩
      refine ⟨hlen, ?_, hcls, hdt, hna⟩
      intro ju hju
      rcases hdt ju hju with h | h
      · intro hk
        exact hV (h ▸ hk)
      · intro hk
        exact isIUB_ne_V h hk
    · rintro ⟨hlen, hnoproxy, hcls, hdt, hna⟩
      exact ⟨hcls, hdt, hna, hlen⟩

/-- C9: calling `concatenate_managers` with an empty input list fails with
the EmptyInput condition (in the source, the subscript `mgrs_indexers[0][0]`
raises before any container could be built) rather than returning a
container. -/
theorem concatenate_managers_empty_input (axes : List (List Nat))
    (concat_axis : Nat) (copy : Bool) :
    concatenate_managers [] axes concat_axis copy =
      Except.error ConcatErr.emptyInput := rfl

/-- C10: a join unit whose block dtype is not void-kind and whose block
cannot hold missing values is never all-missing, regardless of its size. -/
theorem is_na_false_of_cannot_hold_na (u : JoinUnit)
    (h1 : ¬ (u.block.dtype.kind = DKind.V))
    (h2 : u.block.can_hold_na = false) :
    u.is_na = false := by
  unfold JoinUnit.is_na
  simp [h1, h2]

theorem is_na_false_of_cannot_hold_na_witness :
    JoinUnit.is_na ⟨⟨⟨.np .i 8, .d2 [[]]⟩, [0]⟩⟩ = false :=
  is_na_false_of_cannot_hold_na ⟨⟨⟨.np .i 8, .d2 [[]]⟩, [0]⟩⟩
    (by decide) (by decide)

/-- C4 counterexample: a join unit with zero elements (an empty non-nullable
int64 block) whose `is_na` is false — so it is not the case that every unit
with zero elements is all-missing regardless of its storage type. -/
theorem is_na_empty_unit_counterexample :
    (JoinUnit.mk ⟨⟨.np .i 8, .d2 [[]]⟩, [0]⟩).block.values.data.size = 0 ∧
    JoinUnit.is_na ⟨⟨⟨.np .i 8, .d2 [[]]⟩, [0]⟩⟩ = false := by
  constructor
  · decide
  · decide

/-- C4 (amended): a proxy-backed unit is always all-missing; a unit whose
block cannot hold missing values (and is not a proxy) is never all-missing,
even with zero elements; among units whose block can hold missing values,
every zero-element unit is all-missing (including sparse ones, since the
emptiness test precedes the sparse test), and a nonempty sparse-storage unit
is never all-missing. -/
theorem is_na_special_cases (u : JoinUnit) :
    (u.block.dtype.kind = DKind.V → u.is_na = true) ∧
    (¬ (u.block.dtype.kind = DKind.V) → u.block.can_hold_na = false →
      u.is_na = false) ∧
    (¬ (u.block.dtype.kind = DKind.V) → u.block.can_hold_na = true →
      u.block.values.data.size = 0 → u.is_na = true) ∧
    (¬ (u.block.dtype.kind = DKind.V) → u.block.can_hold_na = true →
      ¬ (u.block.values.data.size = 0) → u.block.dtype.isSparse = true →
      u.is_na = false) := by
  refine ⟨?_, ?_, ?_, ?_⟩
  · intro h
    unfold JoinUnit.is_na
    simp [h]
  · intro h1 h2
    unfold JoinUnit.is_na
    simp [h1, h2]
  · intro h1 h2 h3
    unfold JoinUnit.is_na
    simp [h1, h2, h3]
  · intro h1 h2 h3 h4
    unfold JoinUnit.is_na
    simp [h1, h2, h3, Block.dtype] at *
    simp [h1, h2, h3, h4, Block.dtype]

theorem is_na_special_cases_witness :
    JoinUnit.is_na ⟨⟨⟨.np .V 0, .d2 [[.obj 0]]⟩, [0]⟩⟩ = true ∧
    JoinUnit.is_na ⟨⟨⟨.np .u 8, .d2 [[]]⟩, [0]⟩⟩ = false ∧
    JoinUnit.is_na ⟨⟨⟨.sparse 8, .d1 []⟩, [0]⟩⟩ = true ∧
    JoinUnit.is_na ⟨⟨⟨.sparse 8, .d1 [.float 1]⟩, [0]⟩⟩ = false :=
  ⟨(is_na_special_cases ⟨⟨⟨.np .V 0, .d2 [[.obj 0]]⟩, [0]⟩⟩).1 (by decide),
   (is_na_special_cases ⟨⟨⟨.np .u 8, .d2 [[]]⟩, [0]⟩⟩).2.1 (by decide) (by decide),
   (is_na_special_cases ⟨⟨⟨.sparse 8, .d1 []⟩, [0]⟩⟩).2.2.1 (by decide)
     (by decide) (by decide),
   (is_na_special_cases ⟨⟨⟨.sparse 8, .d1 [.float 1]⟩, [0]⟩⟩).2.2.2 (by decide)
     (by decide) (by decide) (by decide)⟩

/-- Claim-side formulation of the dtype unification rule: one unit gives its
own dtype; identical dtypes give the shared dtype; otherwise the smallest
common type of the dtypes of the units that are not all-missing (falling
back to the dtypes of all non-proxy units when every unit is all-missing),
widened to hold a missing marker exactly when a proxy unit participates. -/
def specGetEmptyDtype (join_units : List JoinUnit) : DType :=
  if join_units.length = 1 then (join_units.headD default).block.dtype
  else if join_units.all (fun ju =>
      decide (ju.block.dtype = (join_units.headD default).block.dtype)) then
    (join_units.headD default).block.dtype
  else
    let common :=
      if join_units.all (fun ju => ju.is_na) then
        find_common_type
          ((join_units.filter (fun ju => ¬ (ju.block.dtype.kind = DKind.V))).map
            (fun ju => ju.block.dtype))
      else
        find_common_type
          ((join_units.filter (fun ju => ¬ ju.is_na)).map
            (fun ju => ju.block.dtype))
    if join_units.any (fun ju => ju.block.dtype.kind = DKind.V) then
      ensure_dtype_can_hold_na common
    else common

theorem all_map_decide_eq {α β : Type} [DecidableEq β] (l : List α)
    (f : α → β) (d : β) :
    ((l.map f).all fun x => decide (x = d)) = l.all fun x => decide (f x = d) := by
  induction l with
  | nil => rfl
  | cons a t ih => simp only [List.map_cons, List.all_cons, ih]

/-- C1: for every nonempty join-unit group, `_get_empty_dtype` computes
exactly the spec's rule. -/
theorem get_empty_dtype_spec (join_units : List JoinUnit)
    (h : join_units ≠ []) :
    _get_empty_dtype join_units = specGetEmptyDtype join_units := by
  obtain ⟨a, t, rfl⟩ : ∃ a t, join_units = a :: t := by
    cases join_units with
    | nil => exact absurd rfl h
    | cons a t => exact ⟨a, t, rfl⟩
  unfold _get_empty_dtype specGetEmptyDtype
  by_cases h1 : (a :: t).length = 1
  · rw [if_pos h1, if_pos h1]
  · rw [if_neg h1, if_neg h1]
    have hco : dtypes_all_equal ((a :: t).map (fun ju => ju.block.dtype)) =
        ((a :: t).all (fun ju =>
          decide (ju.block.dtype = ((a :: t).headD default).block.dtype))) := by
      simp only [dtypes_all_equal, List.map_cons, List.all_cons,
        List.headD_cons, decide_eq_true_eq]
      rw [all_map_decide_eq]
      simp
    rw [hco]
    by_cases h2 : ((a :: t).all (fun ju =>
        decide (ju.block.dtype = ((a :: t).headD default).block.dtype))) = true
    · rw [if_pos h2, if_pos h2]
    · rw [if_neg h2, if_neg h2]
      have hcond : (((a :: t).filter (fun ju => ¬ ju.is_na)).map
          (fun ju => ju.block.dtype)).isEmpty =
          ((a :: t).all (fun ju => ju.is_na)) := by
        rw [Bool.eq_iff_iff]
        simp [List.isEmpty_iff, List.filter_eq_nil_iff]
      simp only [hcond, apply_ite find_common_type]

theorem get_empty_dtype_spec_witness :
    _get_empty_dtype
        [⟨⟨⟨.np .V 0, .d2 [[.obj 0]]⟩, [0]⟩⟩, ⟨⟨⟨.np .f 8, .d2 [[.nan]]⟩, [0]⟩⟩] =
      specGetEmptyDtype
        [⟨⟨⟨.np .V 0, .d2 [[.obj 0]]⟩, [0]⟩⟩, ⟨⟨⟨.np .f 8, .d2 [[.nan]]⟩, [0]⟩⟩] :=
  get_empty_dtype_spec _ (by decide)

theorem takeWhile_length_le_self {α : Type} (p : α → Bool) (l : List α) :
    (l.takeWhile p).length ≤ l.length := by
  induction l with
  | nil => simp
  | cons a t ih =>
      by_cases h : p a
      · simp only [List.takeWhile_cons, h, if_true, List.length_cons]
        omega
      · simp [List.takeWhile_cons, h]

theorem runsFrom_cover :
    ∀ (N : Nat) (vs : List (List Nat)) (start : Nat), vs.length ≤ N →
    ((runsFrom vs start).map (fun r => List.range' r.2.1 r.2.2)).flatten =
      List.range' start vs.length := by
  intro N
  induction N with
  | zero =>
      intro vs start h
      have : vs = [] := List.length_eq_zero.mp (Nat.le_zero.mp h)
      subst this
      simp [runsFrom]
  | succ n ih =>
      intro vs start h
      match vs with
      | [] => simp [runsFrom]
      | v :: rest =>
          rw [runsFrom]
          simp only [List.map_cons, List.flatten_cons]
          have htw : (rest.takeWhile (fun x => decide (x = v))).length ≤
              rest.length := takeWhile_length_le_self _ _
          have hlen : (rest.drop
              ((rest.takeWhile (fun x => decide (x = v))).length + 1 - 1)).length ≤ n := by
            simp only [List.length_drop]
            simp only [List.length_cons] at h
            omega
          rw [ih _ _ hlen]
          simp only [List.length_drop]
          have happ := List.range'_append start
            ((rest.takeWhile (fun x => decide (x = v))).length + 1)
            (rest.length -
              ((rest.takeWhile (fun x => decide (x = v))).length + 1 - 1)) 1
          simp only [Nat.one_mul] at happ
          rw [happ]
          congr 1
          simp only [List.length_cons]
          omega

theorem blknos_length (m : BlockManager) : m.blknos.length = m.ncols := by
  simp [BlockManager.blknos]

theorem get_concat_blkno_cover (bls : List (List Nat)) :
    ((get_concat_blkno_indexers bls).map
      (fun r => List.range' r.2.1 r.2.2)).flatten =
      List.range (bls.headD []).length := by
  unfold get_concat_blkno_indexers
  rw [runsFrom_cover ((List.range (bls.headD []).length).map
      (fun p => bls.map (fun bl => bl.getD p 0))).length _ 0 (le_refl _)]
  simp [List.range_eq_range']

theorem plan_placements_cover (mgrs : List BlockManager) :
    ((_get_combined_plan mgrs).map
      (fun pr => List.range' pr.1.1 pr.1.2)).flatten =
      List.range (mgrs.headD default).ncols := by
  unfold _get_combined_plan
  simp only [List.map_map]
  have : ((get_concat_blkno_indexers (mgrs.map BlockManager.blknos)).map
      (fun r => List.range' r.2.1 r.2.2)).flatten =
      List.range ((mgrs.map BlockManager.blknos).headD []).length :=
    get_concat_blkno_cover _
  rw [show ((fun pr : (Nat × Nat) × List JoinUnit =>
        List.range' pr.1.1 pr.1.2) ∘ (fun pr : List Nat × Nat × Nat =>
          ((pr.2.1, pr.2.2), (mgrs.zip pr.1).map (fun mb =>
            JoinUnit.mk (_get_block_for_concat_plan mb.1 (pr.2.1, pr.2.2) mb.2
              (mgrs.headD default).ncols))))) =
      (fun r : List Nat × Nat × Nat => List.range' r.2.1 r.2.2) from rfl]
  rw [this]
  cases mgrs with
  | nil => rfl
  | cons m rest => simp [blknos_length]

theorem blockForGroup_mgrLocs {pr : (Nat × Nat) × List JoinUnit} {copy : Bool}
    {b : Block} (h : blockForGroup pr copy = some b) :
    b.mgrLocs = List.range' pr.1.1 pr.1.2 := by
  simp only [blockForGroup] at h
  rw [Option.map_eq_some'] at h
  obtain ⟨v, hv, rfl⟩ := h
  rfl

theorem planBlocks_mgrLocs (plan : List ((Nat × Nat) × List JoinUnit))
    (copy : Bool) :
    ∀ bs, planBlocks plan copy = some bs →
    bs.map Block.mgrLocs = plan.map (fun pr => List.range' pr.1.1 pr.1.2) := by
  induction plan with
  | nil =>
      intro bs h
      simp only [planBlocks, Option.some_inj] at h
      subst h
      rfl
  | cons pr rest ih =>
      intro bs h
      unfold planBlocks at h
      cases hb : blockForGroup pr copy with
      | none => rw [hb] at h; exact absurd h (by simp)
      | some b =>
          cases hrest : planBlocks rest copy with
          | none => rw [hb, hrest] at h; exact absurd h (by simp)
          | some bs2 =>
              rw [hb, hrest] at h
              simp only [Option.some_inj] at h
              subst h
              simp only [List.map_cons, blockForGroup_mgrLocs hb, ih bs2 hrest]

/-- Property holding of the returned container when a concatenation
succeeds. -/
def onOkMgr (e : Except ConcatErr BlockManager) (P : BlockManager → Prop) :
    Prop :=
  match e with
  | .ok m => P m
  | .error _ => True

/-- C7: for column-aligned inputs (every manager has the full output column
count `n`), the placements of the combined plan tile the output column range
`[0, n)` exactly once and in order, and a successfully returned container
carries exactly the supplied axes with its blocks' placements disjointly
covering every output column position. -/
theorem combined_plan_and_result_cover (mgrs : List BlockManager)
    (axes : List (List Nat)) (copy : Bool) (n : Nat)
    (hne : mgrs ≠ [])
    (hcols : ∀ m ∈ mgrs, m.ncols = n) :
    (((_get_combined_plan mgrs).map
        (fun pr => List.range' pr.1.1 pr.1.2)).flatten = List.range n) ∧
    onOkMgr (concatenate_managers mgrs axes 1 copy) (fun res =>
      res.axes = axes ∧
      (res.blocks.map Block.mgrLocs).flatten = List.range n) := by
  obtain ⟨m, rest, rfl⟩ : ∃ m rest, mgrs = m :: rest := by
    cases mgrs with
    | nil => exact absurd rfl hne
    | cons m rest => exact ⟨m, rest, rfl⟩
  have hn : ((m :: rest).headD default).ncols = n := by
    simpa using hcols m (by simp)
  have hcover := plan_placements_cover (m :: rest)
  rw [hn] at hcover
  refine ⟨hcover, ?_⟩
  show onOkMgr (concatenate_managers (m :: rest) axes 1 copy) _
  unfold concatenate_managers
  cases hpb : planBlocks (_get_combined_plan (m :: rest)) copy with
  | none => simp [onOkMgr, hpb]
  | some blocks =>
      simp only [hpb]
      have hlocs := planBlocks_mgrLocs _ copy blocks hpb
      simp only [onOkMgr]
      exact ⟨rfl, by rw [hlocs, hcover]⟩

theorem combined_plan_and_result_cover_witness :
    ((((_get_combined_plan
        [⟨[⟨⟨.np .i 8, .d2 [[.int 1, .int 2]]⟩, [0]⟩], [[100], [7, 8]]⟩,
         ⟨[⟨⟨.np .i 8, .d2 [[.int 3]]⟩, [0]⟩], [[100], [9]]⟩]).map
        (fun pr => List.range' pr.1.1 pr.1.2)).flatten = List.range 1) ∧
    onOkMgr (concatenate_managers
        [⟨[⟨⟨.np .i 8, .d2 [[.int 1, .int 2]]⟩, [0]⟩], [[100], [7, 8]]⟩,
         ⟨[⟨⟨.np .i 8, .d2 [[.int 3]]⟩, [0]⟩], [[100], [9]]⟩]
        [[100], [7, 8, 9]] 1 false) (fun res =>
      res.axes = [[100], [7, 8, 9]] ∧
      (res.blocks.map Block.mgrLocs).flatten = List.range 1)) :=
  combined_plan_and_result_cover _ _ false 1 (by decide) (by decide)

/-- Cumulative column count of the managers preceding index `i`. -/
def offsetBefore (mgrs : List BlockManager) (i : Nat) : Nat :=
  ((mgrs.take i).map BlockManager.ncols).sum


theorem offsetBefore_succ (m : BlockManager) (rest : List BlockManager)
    (i : Nat) :
    offsetBefore (m :: rest) (i + 1) = m.ncols + offsetBefore rest i := by
  simp [offsetBefore, List.take_succ_cons]

theorem axis0Blocks_closed (mgrs : List BlockManager) (offset : Nat) :
    axis0Blocks mgrs offset =
      ((List.range mgrs.length).map (fun i =>
        ((mgrs.getD i default).blocks.map
          (shiftBlock (offset + offsetBefore mgrs i))))).flatten := by
  induction mgrs generalizing offset with
  | nil => rfl
  | cons m rest ih =>
      rw [axis0Blocks, ih (offset + m.ncols)]
      simp only [List.length_cons, List.range_succ_eq_map, List.map_cons,
        List.flatten_cons, List.map_map]
      congr 1
      refine congrArg List.flatten ?_
      apply List.map_congr_left
      intro i hi
      simp only [Function.comp_apply, offsetBefore, List.getD_cons_succ,
        List.getElem?_cons_succ, List.take_succ_cons, List.sum_cons,
        List.map_cons, List.map_take, Nat.add_assoc]

/-- C8: row-axis concatenation installs the supplied axes and reproduces each
source manager's blocks in source order — values and dtypes untouched (no
cross-table unification), with only the placement shifted by the cumulative
column count of the preceding managers; `concatenate_managers` dispatches
every nonempty `concat_axis = 0` call to this function. -/
theorem concat_managers_axis0_spec (mgrs : List BlockManager)
    (axes : List (List Nat)) :
    (_concat_managers_axis0 mgrs axes).axes = axes ∧
    (_concat_managers_axis0 mgrs axes).blocks =
      ((List.range mgrs.length).map (fun i =>
        ((mgrs.getD i default).blocks.map
          (shiftBlock (offsetBefore mgrs i))))).flatten ∧
    (∀ copy : Bool, mgrs ≠ [] →
      concatenate_managers mgrs axes 0 copy =
        Except.ok (_concat_managers_axis0 mgrs axes)) := by
  refine ⟨rfl, ?_, ?_⟩
  · have h := axis0Blocks_closed mgrs 0
    simpa [_concat_managers_axis0] using h
  · intro copy h
    cases mgrs with
    | nil => exact absurd rfl h
    | cons m rest => rfl

theorem concat_managers_axis0_spec_witness :
    concatenate_managers
        [⟨[⟨⟨.np .i 8, .d2 [[.int 1, .int 2]]⟩, [0]⟩], [[100], [7, 8]]⟩,
         ⟨[⟨⟨.np .f 8, .d2 [[.float 3]]⟩, [0]⟩], [[200], [7, 8]]⟩]
        [[100, 200], [7, 8]] 0 false =
      Except.ok (_concat_managers_axis0
        [⟨[⟨⟨.np .i 8, .d2 [[.int 1, .int 2]]⟩, [0]⟩], [[100], [7, 8]]⟩,
         ⟨[⟨⟨.np .f 8, .d2 [[.float 3]]⟩, [0]⟩], [[200], [7, 8]]⟩]
        [[100, 200], [7, 8]]) :=
  (concat_managers_axis0_spec _ _).2.2 false (by decide)

/-! Infrastructure for the all-missing synthesis claim. -/

/-- Numpy kinds that can hold a missing marker (not integer, unsigned,
boolean, or void). -/
def restrictedK (k : DKind) : Prop :=
  k = .f ∨ k = .c ∨ k = .M ∨ k = .m ∨ k = .O

theorem promote2_restricted {k1 k2 : DKind} {s1 s2 : Nat}
    (h1 : restrictedK k1) (h2 : restrictedK k2) :
    ∃ k3 s3, promote2 (.np k1 s1) (.np k2 s2) = .np k3 s3 ∧ restrictedK k3 ∧
      (k3 = .f ↔ (k1 = .f ∧ k2 = .f)) := by
  by_cases heq : (DType.np k1 s1) = (DType.np k2 s2)
  · refine ⟨k1, s1, ?_, h1, ?_⟩
    · unfold promote2
      rw [if_pos heq]
    · injection heq with hk hs
      subst hk
      constructor
      · intro h
        exact ⟨h, h⟩
      · intro h
        exact h.1
  · unfold promote2
    rw [if_neg heq]
    rcases h1 with rfl | rfl | rfl | rfl | rfl <;>
      rcases h2 with rfl | rfl | rfl | rfl | rfl <;>
      exact ⟨_, _, rfl, by simp [restrictedK], by simp⟩

theorem foldl_promote2_restricted (ds : List DType) :
    ∀ (k1 : DKind) (s1 : Nat), restrictedK k1 →
    (∀ d ∈ ds, ∃ k s, d = DType.np k s ∧ restrictedK k) →
    ∃ k3 s3, ds.foldl promote2 (.np k1 s1) = .np k3 s3 ∧ restrictedK k3 ∧
      (k3 = .f ↔ (k1 = .f ∧ ∀ d ∈ ds, d.kind = .f)) := by
  induction ds with
  | nil =>
      intro k1 s1 h1 hds
      exact ⟨k1, s1, rfl, h1, by simp⟩
  | cons d rest ih =>
      intro k1 s1 h1 hds
      obtain ⟨k2, s2, rfl, h2⟩ := hds d (by simp)
      obtain ⟨ka, sa, hpa, hra, hfa⟩ := promote2_restricted h1 h2
      rw [List.foldl_cons, hpa]
      obtain ⟨k3, s3, hp3, hr3, hf3⟩ := ih ka sa hra
        (fun x hx => hds x (by simp [hx]))
      refine ⟨k3, s3, hp3, hr3, ?_⟩
      rw [hf3, hfa]
      constructor
      · rintro ⟨⟨hk1, hk2⟩, hrest⟩
        refine ⟨hk1, ?_⟩
        intro x hx
        rcases List.mem_cons.mp hx with rfl | hx
        · simpa [DType.kind] using hk2
        · exact hrest x hx
      · rintro ⟨hk1, hall⟩
        refine ⟨⟨hk1, ?_⟩, fun x hx => hall x (by simp [hx])⟩
        have := hall (.np k2 s2) (by simp)
        simpa [DType.kind] using this

theorem canHoldNa_np_restricted {d : DType} (h1 : d.canHoldNa = true)
    (h2 : ¬ d.kind = DKind.V) (h3 : d.isNumpy = true) :
    ∃ k s, d = .np k s ∧ restrictedK k := by
  cases d with
  | np k s =>
      refine ⟨k, s, rfl, ?_⟩
      cases k <;> simp_all [DType.canHoldNa, DType.kind, restrictedK]
  | mask k s => simp [DType.isNumpy] at h3
  | sparse s => simp [DType.isNumpy] at h3

theorem restrictedK_not_iub {k : DKind} (h : restrictedK k) :
    k.isIUB = false := by
  rcases h with rfl | rfl | rfl | rfl | rfl <;> rfl

theorem fct_good (ds : List DType)
    (h : ∀ d ∈ ds, d.canHoldNa = true ∧ ¬ d.kind = DKind.V) :
    (∀ sz, find_common_type ds = .np .f sz → ∀ d ∈ ds, ∃ s, d = .np .f s) ∧
    (∀ k s, k.isIUB = true → ¬ (find_common_type ds = .np k s)) := by
  cases ds with
  | nil =>
      constructor
      · intro sz hsz d hd
        cases hd
      · intro k s hk hc
        simp only [find_common_type] at hc
        injection hc with h1 h2
        subst h1
        simp [DKind.isIUB] at hk
  | cons d0 rest =>
      have hfct : find_common_type (d0 :: rest) =
          (if rest.all (fun x => decide (x = d0)) then d0
           else if (d0 :: rest).all DType.isNumpy then
             npPromoteList (d0 :: rest)
           else if (d0 :: rest).any DType.isSparse then DType.sparse 8
           else if (d0 :: rest).all (fun x => x.isNumpy || x.isMask) then
             maskJoin (d0 :: rest)
           else .np .O 8) := rfl
      rw [hfct]
      by_cases hall : rest.all (fun x => decide (x = d0)) = true
      · rw [if_pos hall]
        constructor
        · intro sz hsz x hx
          rcases List.mem_cons.mp hx with rfl | hx
          · exact ⟨sz, hsz⟩
          · have hx0 := List.all_eq_true.mp hall x hx
            simp only [decide_eq_true_eq] at hx0
            exact ⟨sz, by rw [hx0, hsz]⟩
        · intro k s hk hcontra
          have hd0 := h d0 (by simp)
          rw [hcontra] at hd0
          cases k <;> simp_all [DType.canHoldNa, DKind.isIUB, DType.kind]
      · rw [if_neg hall]
        by_cases hnp : (d0 :: rest).all DType.isNumpy = true
        · rw [if_pos hnp]
          have hres : ∀ x ∈ (d0 :: rest), ∃ k s, x = .np k s ∧ restrictedK k := by
            intro x hx
            exact canHoldNa_np_restricted (h x hx).1 (h x hx).2
              (List.all_eq_true.mp hnp x hx)
          obtain ⟨k0, s0, hd0eq, hr0⟩ := hres d0 (by simp)
          subst hd0eq
          obtain ⟨k3, s3, hp3, hr3, hf3⟩ := foldl_promote2_restricted rest k0 s0
            hr0 (fun x hx => hres x (by simp [hx]))
          have hnpl : npPromoteList (DType.np k0 s0 :: rest) =
              List.foldl promote2 (DType.np k0 s0) rest := rfl
          constructor
          · intro sz hsz x hx
            rw [hnpl, hp3] at hsz
            injection hsz with hke hse
            subst hke
            obtain ⟨hk0f, hrestf⟩ := hf3.mp rfl
            rcases List.mem_cons.mp hx with rfl | hx
            · subst hk0f
              exact ⟨s0, rfl⟩
            · obtain ⟨kx, sx, rfl, hrx⟩ := hres x (by simp [hx])
              have : kx = DKind.f := by simpa [DType.kind] using hrestf _ hx
              subst this
              exact ⟨sx, rfl⟩
          · intro k s hk hcontra
            rw [hnpl, hp3] at hcontra
            injection hcontra with hke hse
            subst hke
            rw [restrictedK_not_iub hr3] at hk
            cases hk
        · rw [if_neg hnp]
          by_cases hsp : (d0 :: rest).any DType.isSparse = true
          · rw [if_pos hsp]
            exact ⟨fun sz hsz => absurd hsz (by simp),
              fun k s hk hc => absurd hc (by simp)⟩
          · rw [if_neg hsp]
            by_cases hm : (d0 :: rest).all (fun x => x.isNumpy || x.isMask) = true
            · rw [if_pos hm]
              cases hpl : npPromoteList ((d0 :: rest).map DType.toNumpy) with
              | np k s =>
                  have hmj : maskJoin (d0 :: rest) =
                      (if k.isNumericLike then DType.mask k s
                       else .np .O 8) := by
                    unfold maskJoin
                    rw [hpl]
                  rw [hmj]
                  by_cases hnl : k.isNumericLike = true
                  · rw [if_pos hnl]
                    exact ⟨fun sz hsz => absurd hsz (by simp),
                      fun k2 s2 hk2 hc => absurd hc (by simp)⟩
                  · rw [if_neg hnl]
                    constructor
                    · intro sz hsz
                      injection hsz with h1 h2
                      cases h1
                    · intro k2 s2 hk2 hc
                      injection hc with h1 h2
                      subst h1
                      simp [DKind.isIUB] at hk2
              | mask k s =>
                  have hmj : maskJoin (d0 :: rest) = .np .O 8 := by
                    unfold maskJoin
                    rw [hpl]
                  rw [hmj]
                  constructor
                  · intro sz hsz
                    injection hsz with h1 h2
                    cases h1
                  · intro k2 s2 hk2 hc
                    injection hc with h1 h2
                    subst h1
                    simp [DKind.isIUB] at hk2
              | sparse s =>
                  have hmj : maskJoin (d0 :: rest) = .np .O 8 := by
                    unfold maskJoin
                    rw [hpl]
                  rw [hmj]
                  constructor
                  · intro sz hsz
                    injection hsz with h1 h2
                    cases h1
                  · intro k2 s2 hk2 hc
                    injection hc with h1 h2
                    subst h1
                    simp [DKind.isIUB] at hk2
            · rw [if_neg hm]
              constructor
              · intro sz hsz
                injection hsz with h1 h2
                cases h1
              · intro k2 s2 hk2 hc
                injection hc with h1 h2
                subst h1
                simp [DKind.isIUB] at hk2

theorem exists_cons {α : Type} {l : List α} (h : l ≠ []) :
    ∃ a t, l = a :: t := by
  cases l with
  | nil => exact absurd rfl h
  | cons a t => exact ⟨a, t, rfl⟩

theorem is_na_can_hold (u : JoinUnit) (h : u.is_na = true)
    (hV : ¬ u.block.dtype.kind = DKind.V) :
    u.block.dtype.canHoldNa = true := by
  by_contra hc
  unfold JoinUnit.is_na at h
  rw [if_neg hV] at h
  have : u.block.can_hold_na = false := by
    simpa [Block.can_hold_na] using hc
  rw [this] at h
  simp at h

theorem units_classify_f8 (join_units : List JoinUnit)
    (hne : join_units ≠ [])
    (hna : ∀ u ∈ join_units, u.is_na = true)
    (hTg : _get_empty_dtype join_units = .np .f 8) :
    ∀ u ∈ join_units,
      u.block.dtype.kind = DKind.V ∨ ∃ s, u.block.dtype = .np .f s := by
  intro u hu
  by_cases hV : u.block.dtype.kind = DKind.V
  · exact Or.inl hV
  right
  obtain ⟨a, t, rfl⟩ := exists_cons hne
  unfold _get_empty_dtype at hTg
  by_cases h1 : (a :: t).length = 1
  · rw [if_pos h1] at hTg
    have ht : t = [] := by
      cases t with
      | nil => rfl
      | cons b t2 => simp at h1
    subst ht
    have : u = a := by simpa using hu
    subst this
    exact ⟨8, by simpa using hTg⟩
  · rw [if_neg h1] at hTg
    by_cases h2 : dtypes_all_equal ((a :: t).map (fun ju => ju.block.dtype)) = true
    · rw [if_pos h2] at hTg
      simp only [List.headD_cons] at hTg
      refine ⟨8, ?_⟩
      rcases List.mem_cons.mp hu with rfl | hu2
      · exact hTg
      · have := List.all_eq_true.mp ((by
          simpa [dtypes_all_equal, all_map_decide_eq] using h2 :
            (t.all fun x => decide (x.block.dtype = a.block.dtype)) = true)) u hu2
        simp only [decide_eq_true_eq] at this
        rw [this, hTg]
    · rw [if_neg h2] at hTg
      have hempty : (((a :: t).filter (fun ju => ¬ ju.is_na)).map
          (fun ju => ju.block.dtype)).isEmpty = true := by
        simp only [List.isEmpty_iff, List.map_eq_nil_iff, List.filter_eq_nil_iff]
        intro x hx
        simp [hna x hx]
      simp only [hempty, if_true] at hTg
      have hgood : ∀ d ∈ (((a :: t).filter
          (fun ju => ¬ (ju.block.dtype.kind = DKind.V))).map
            (fun ju => ju.block.dtype)),
          d.canHoldNa = true ∧ ¬ d.kind = DKind.V := by
        intro d hd
        simp only [List.mem_map, List.mem_filter] at hd
        obtain ⟨x, ⟨hxmem, hxV⟩, rfl⟩ := hd
        simp only [decide_eq_true_eq] at hxV
        exact ⟨is_na_can_hold x (hna x hxmem) hxV, hxV⟩
      obtain ⟨hfloat, hiub⟩ := fct_good _ hgood
      have humem : u.block.dtype ∈ (((a :: t).filter
          (fun ju => ¬ (ju.block.dtype.kind = DKind.V))).map
            (fun ju => ju.block.dtype)) := by
        simp only [List.mem_map, List.mem_filter]
        exact ⟨u, ⟨hu, by simpa using hV⟩, rfl⟩
      have hfc8 : find_common_type (((a :: t).filter
          (fun ju => ¬ (ju.block.dtype.kind = DKind.V))).map
            (fun ju => ju.block.dtype)) = .np .f 8 := by
        by_cases hnb : ((a :: t).any
            (fun unit => decide (unit.block.dtype.kind = DKind.V))) = true
        · rw [if_pos hnb] at hTg
          cases hfc : find_common_type (((a :: t).filter
              (fun ju => ¬ (ju.block.dtype.kind = DKind.V))).map
                (fun ju => ju.block.dtype)) with
          | np k s =>
              rw [hfc] at hTg
              cases k with
              | i => exact absurd hfc (hiub .i s rfl)
              | u => exact absurd hfc (hiub .u s rfl)
              | b => simp [ensure_dtype_can_hold_na] at hTg
              | f =>
                  simp only [ensure_dtype_can_hold_na] at hTg
                  exact hTg
              | c => simp [ensure_dtype_can_hold_na] at hTg
              | M => simp [ensure_dtype_can_hold_na] at hTg
              | m => simp [ensure_dtype_can_hold_na] at hTg
              | O => simp [ensure_dtype_can_hold_na] at hTg
              | V => simp [ensure_dtype_can_hold_na] at hTg
          | mask k s =>
              rw [hfc] at hTg
              simp [ensure_dtype_can_hold_na] at hTg
          | sparse s =>
              rw [hfc] at hTg
              simp [ensure_dtype_can_hold_na] at hTg
        · rw [if_neg hnb] at hTg
          exact hTg
      exact hfloat 8 hfc8 u.block.dtype humem

theorem na_unit_valid_f8 (u : JoinUnit) (hna : u.is_na = true)
    (hdt : u.block.dtype.kind = DKind.V ∨ ∃ s, u.block.dtype = .np .f s) :
    u.isValidNaFor (.np .f 8) = true := by
  unfold JoinUnit.isValidNaFor
  rw [if_neg (by simp [hna])]
  rcases hdt with hV | ⟨s, hf⟩
  · rw [if_pos hV]
  · have hV : ¬ (u.block.dtype.kind = DKind.V) := by
      rw [hf]
      simp [DType.kind]
    rw [if_neg hV]
    have hO : ¬ (u.block.dtype = .np .O 8) := by
      rw [hf]
      simp
    rw [if_neg hO]
    have hfv : u.block.fill_value = Val.nan := by
      simp [Block.fill_value, Block.dtype] at *
      rw [hf]
      rfl
    simp [hfv, is_valid_na_for_dtype, isna, isScalarV, DType.kind]

theorem na_unit_reindexed_f8 (u : JoinUnit) (hna : u.is_na = true)
    (hdt : u.block.dtype.kind = DKind.V ∨ ∃ s, u.block.dtype = .np .f s) :
    u.get_reindexed_values (.np .f 8) .nan =
      ⟨.np .f 8, .d2 (List.replicate u.block.shape.1
        (List.replicate u.block.shape.2 .nan))⟩ := by
  unfold JoinUnit.get_reindexed_values
  rw [if_neg (by simp)]
  rw [if_pos (na_unit_valid_f8 u hna hdt)]
  have hO : ¬ (u.block.dtype = .np .O 8) := by
    rcases hdt with hV | ⟨s, hf⟩
    · intro hc
      rw [hc] at hV
      simp [DType.kind] at hV
    · rw [hf]
      simp
  rw [if_neg hO]
  simp [make_na_array, is_1d_only_ea_dtype, DType.isExt]

theorem zipApp2_replicate (n : Nat) (xs ys : List Val) :
    zipApp2 (List.replicate n xs) (List.replicate n ys) =
      List.replicate n (xs ++ ys) := by
  induction n with
  | zero => rfl
  | succ k ih =>
      simp only [List.replicate_succ, zipApp2, List.zipWith_cons_cons]
      rw [show List.zipWith (fun r s => r ++ s) (List.replicate k xs)
          (List.replicate k ys) = List.replicate k (xs ++ ys) from by
        simp only [zipApp2] at ih; exact ih]

theorem foldl_zipApp_replicate (ms : List Nat) (n : Nat) (xs : List Val)
    (v : Val) :
    (ms.map (fun m => List.replicate n (List.replicate m v))).foldl zipApp2
        (List.replicate n xs) =
      List.replicate n (xs ++ List.replicate ms.sum v) := by
  induction ms generalizing xs with
  | nil => simp
  | cons m rest ih =>
      simp only [List.map_cons, List.foldl_cons, zipApp2_replicate]
      rw [ih]
      simp [List.append_assoc, List.sum_cons, ← List.replicate_add]

theorem fct_cons_all_eq (d : DType) (l : List DType)
    (hall : ∀ x ∈ l, x = d) : find_common_type (d :: l) = d := by
  have hb : l.all (fun x => decide (x = d)) = true := by
    simp only [List.all_eq_true, decide_eq_true_eq]
    exact hall
  have hfct : find_common_type (d :: l) =
      (if l.all (fun x => decide (x = d)) then d
       else if (d :: l).all DType.isNumpy then npPromoteList (d :: l)
       else if (d :: l).any DType.isSparse then DType.sparse 8
       else if (d :: l).all (fun x => x.isNumpy || x.isMask) then
         maskJoin (d :: l)
       else .np .O 8) := rfl
  rw [hfct, if_pos hb]

theorem isna_all_flatten {xss : List (List Val)}
    (h : xss.all (fun row => isna_all row) = true) :
    xss.flatten.all isna = true := by
  simp only [List.all_eq_true, isna_all] at *
  intro x hx
  obtain ⟨row, hrow, hxr⟩ := List.mem_flatten.mp hx
  exact h row hrow x hxr

/-- An all-missing non-proxy unit has every element missing. -/
theorem is_na_all_elems (u : JoinUnit)
    (hV : ¬ u.block.dtype.kind = DKind.V)
    (hna : u.is_na = true) :
    u.block.values.data.elems.all isna = true := by
  unfold JoinUnit.is_na at hna
  rw [if_neg hV] at hna
  by_cases hch : u.block.can_hold_na = true
  · rw [if_neg (by simp [hch])] at hna
    by_cases hsz : u.block.values.data.size = 0
    · cases hdata : u.block.values.data with
      | d1 xs =>
          rw [hdata] at hsz
          simp only [ArrData.size, List.length_eq_zero] at hsz
          simp [ArrData.elems, hsz]
      | d2 xss =>
          rw [hdata] at hsz
          simp only [ArrData.size] at hsz
          simp only [ArrData.elems, List.all_eq_true]
          intro x hx
          obtain ⟨row, hrow, hxr⟩ := List.mem_flatten.mp hx
          have hzero : row.length = 0 := by
            by_contra hrl
            have hle : row.length ≤ (xss.map List.length).sum :=
              List.single_le_sum (by intro y hy; exact Nat.zero_le y) _
                (List.mem_map_of_mem List.length hrow)
            omega
          rw [List.length_eq_zero.mp hzero] at hxr
          cases hxr
    · rw [if_neg hsz] at hna
      by_cases hsp : u.block.values.dtype.isSparse = true
      · rw [if_pos hsp] at hna
        cases hna
      · rw [if_neg hsp] at hna
        cases hdata : u.block.values.data with
        | d1 xs =>
            rw [hdata] at hna
            dsimp only at hna
            cases hh : xs.head? with
            | none =>
                rw [hh] at hna
                cases hna
            | some v =>
                rw [hh] at hna
                simp only [Bool.and_eq_true] at hna
                simp only [ArrData.elems]
                exact hna.2
        | d2 xss =>
            rw [hdata] at hna
            dsimp only at hna
            cases hh : xss.head?.bind List.head? with
            | none =>
                rw [hh] at hna
                cases hna
            | some v =>
                rw [hh] at hna
                simp only [Bool.and_eq_true] at hna
                simp only [ArrData.elems]
                exact isna_all_flatten hna.2
  · rw [if_pos (by simp [hch])] at hna
    cases hna

theorem concat_compat_target_all_eq (arrs : List Arr) (d : DType)
    (hne : arrs ≠ []) (hall : ∀ x ∈ arrs, x.dtype = d) :
    find_common_type (arrs.map Arr.dtype) = d := by
  obtain ⟨e0, et, rfl⟩ := exists_cons hne
  rw [List.map_cons, hall e0 (by simp)]
  apply fct_cons_all_eq
  intro x hx
  obtain ⟨u2, hu2, rfl⟩ := List.mem_map.mp hx
  exact hall u2 (by simp [hu2])

/-- C5: (a) a join-unit group whose every unit is all-missing and whose
unified target dtype is float64 assembles (through the generic mixed-group
path) to an array of the group's shape filled entirely with NaN — not with
any unit's native sentinel; and (b) an object-typed all-missing unit that
recorded the explicit None token as its first value synthesizes its
all-missing array in `get_reindexed_values` with that exact None token
instead of NaN. -/
theorem all_missing_synthesis :
    (∀ (join_units : List JoinUnit) (copy : Bool) (n : Nat),
      join_units ≠ [] →
      (∀ u ∈ join_units, u.is_na = true) →
      (∀ u ∈ join_units, u.block.shape.1 = n) →
      _get_empty_dtype join_units = .np .f 8 →
      _concatenate_join_units join_units copy =
        some ⟨.np .f 8, .d2 (List.replicate n (List.replicate
          ((join_units.map (fun u => u.block.shape.2)).sum) .nan))⟩) ∧
    (∀ u : JoinUnit,
      u.block.dtype = .np .O 8 →
      u.is_na = true →
      u.block.values.data.elems.head? = some .none_ →
      u.get_reindexed_values (.np .O 8) .nan =
        make_na_array (.np .O 8) u.block.shape .none_) := by
  constructor
  · intro join_units copy n hne hna hshape hTg
    obtain ⟨a, t, rfl⟩ := exists_cons hne
    have hclass := units_classify_f8 _ hne hna hTg
    have key : (a :: t).map
        (fun ju => ju.get_reindexed_values (.np .f 8) .nan) =
        (a :: t).map (fun u =>
          (⟨.np .f 8, .d2 (List.replicate n
            (List.replicate u.block.shape.2 .nan))⟩ : Arr)) := by
      apply List.map_congr_left
      intro x hx
      rw [na_unit_reindexed_f8 x (hna x hx) (hclass x hx), hshape x hx]
    unfold _concatenate_join_units
    rw [hTg]
    have hnav : _dtype_to_na_value (.np .f 8)
        ((a :: t).any fun unit => decide (unit.block.dtype.kind = DKind.V)) =
        some Val.nan := rfl
    simp only [hnav]
    rw [key]
    cases t with
    | nil => simp
    | cons b t2 =>
        simp only [List.map_cons]
        have hany : ((((⟨.np .f 8, .d2 (List.replicate n
            (List.replicate a.block.shape.2 .nan))⟩ : Arr)) ::
            ((⟨.np .f 8, .d2 (List.replicate n
              (List.replicate b.block.shape.2 .nan))⟩ : Arr)) ::
            (t2.map (fun u => (⟨.np .f 8, .d2 (List.replicate n
              (List.replicate u.block.shape.2 .nan))⟩ : Arr)))).any
            (fun tt => is_1d_only_ea_dtype tt.dtype)) = false := by
          simp only [List.any_cons, List.any_map, Bool.or_eq_false_iff]
          refine ⟨rfl, rfl, ?_⟩
          simp only [List.any_eq_false, Function.comp_apply]
          intro x hx
          simp only [List.mem_map] at hx
          obtain ⟨u2, hu2, rfl⟩ := hx
          simp [is_1d_only_ea_dtype, DType.isExt]
        rw [if_neg (by simp [hany])]
        congr 1
        unfold concat_compat
        rw [if_neg (by simp)]
        have htgt := concat_compat_target_all_eq
            ((⟨.np .f 8, .d2 (List.replicate n
                (List.replicate a.block.shape.2 .nan))⟩ : Arr) ::
              (⟨.np .f 8, .d2 (List.replicate n
                (List.replicate b.block.shape.2 .nan))⟩ : Arr) ::
              t2.map (fun u => (⟨.np .f 8, .d2 (List.replicate n
                (List.replicate u.block.shape.2 .nan))⟩ : Arr)))
            (.np .f 8) (by simp) (by
              intro x hx
              rcases List.mem_cons.mp hx with rfl | hx
              · rfl
              rcases List.mem_cons.mp hx with rfl | hx
              · rfl
              obtain ⟨u2, hu2, rfl⟩ := List.mem_map.mp hx
              rfl)
        rw [htgt]
        have hcast : ∀ (m : Nat), castArr (.np .f 8)
            ⟨.np .f 8, .d2 (List.replicate n (List.replicate m .nan))⟩ =
            ⟨.np .f 8, .d2 (List.replicate n (List.replicate m .nan))⟩ := by
          intro m
          simp [castArr, ArrData.mapVals, List.map_replicate, castVal]
        simp only [List.map_cons, hcast, List.map_map]
        have hmaprows : t2.map ((fun a2 => a2.data.rows) ∘
            castArr (.np .f 8) ∘ (fun u =>
              (⟨.np .f 8, .d2 (List.replicate n
                (List.replicate u.block.shape.2 .nan))⟩ : Arr))) =
            (t2.map (fun u => u.block.shape.2)).map
              (fun m => List.replicate n (List.replicate m Val.nan)) := by
          simp only [List.map_map]
          apply List.map_congr_left
          intro x hx
          simp only [Function.comp_apply, hcast]
          rfl
        rw [hmaprows]
        refine congrArg (fun dd => Arr.mk (.np .f 8) (ArrData.d2 dd)) ?_
        show ((List.replicate n (List.replicate b.block.shape.2 Val.nan) ::
            (t2.map (fun u => u.block.shape.2)).map
              (fun m => List.replicate n (List.replicate m Val.nan))).foldl
            zipApp2 (List.replicate n
              (List.replicate a.block.shape.2 Val.nan))) = _
        rw [show (List.replicate n (List.replicate b.block.shape.2 Val.nan) ::
            (t2.map (fun u => u.block.shape.2)).map
              (fun m => List.replicate n (List.replicate m Val.nan))) =
            ((b.block.shape.2 :: t2.map (fun u => u.block.shape.2)).map
              (fun m => List.replicate n (List.replicate m Val.nan))) from rfl]
        rw [foldl_zipApp_replicate]
        simp [← List.replicate_add, List.sum_cons]
  · intro u hO hna hhead
    have hVk : ¬ u.block.dtype.kind = DKind.V := by
      rw [hO]
      simp [DType.kind]
    have hallna := is_na_all_elems u hVk hna
    unfold JoinUnit.get_reindexed_values
    rw [if_neg (by simp)]
    have hvalid : u.isValidNaFor (.np .O 8) = true := by
      unfold JoinUnit.isValidNaFor
      rw [if_neg (by simp [hna]), if_neg hVk, if_pos hO]
      simp only [List.all_eq_true] at hallna ⊢
      intro x hx
      simp [is_valid_na_for_dtype, isScalarV, hallna x hx, DType.kind]
    rw [if_pos hvalid, if_pos hO, hhead]

theorem all_missing_synthesis_witness :
    (_concatenate_join_units
        [⟨⟨⟨.np .V 0, .d2 [[.obj 0]]⟩, [0]⟩⟩,
         ⟨⟨⟨.np .f 8, .d2 [[.nan]]⟩, [0]⟩⟩] false =
      some ⟨.np .f 8, .d2 (List.replicate 1 (List.replicate
        (([⟨⟨⟨.np .V 0, .d2 [[.obj 0]]⟩, [0]⟩⟩,
           (⟨⟨⟨.np .f 8, .d2 [[.nan]]⟩, [0]⟩⟩ : JoinUnit)].map
            (fun u => u.block.shape.2)).sum) .nan))⟩) ∧
    (JoinUnit.get_reindexed_values ⟨⟨⟨.np .O 8, .d2 [[.none_, .nan]]⟩, [0]⟩⟩
        (.np .O 8) .nan =
      make_na_array (.np .O 8)
        (Block.shape ⟨⟨.np .O 8, .d2 [[.none_, .nan]]⟩, [0]⟩) .none_) :=
  ⟨all_missing_synthesis.1
      [⟨⟨⟨.np .V 0, .d2 [[.obj 0]]⟩, [0]⟩⟩,
       ⟨⟨⟨.np .f 8, .d2 [[.nan]]⟩, [0]⟩⟩]
      false 1 (by decide) (by decide) (by decide) (by decide),
   all_missing_synthesis.2 ⟨⟨⟨.np .O 8, .d2 [[.none_, .nan]]⟩, [0]⟩⟩
      (by decide) (by decide) (by decide)⟩

/-! Infrastructure for the fast-path equivalence claim. -/

/-- Normalization for the element-wise comparison of assembled values in the
Python sense: booleans and integers are read as the floats they compare
equal to, and every missing marker is collapsed to a single token. -/
def normNaVal (v : Val) : Val :=
  if isna v then .nan else normVal v

theorem normNa_castVal (v : Val) (t : DType) :
    normNaVal (castVal v t) = normNaVal v := by
  cases v with
  | bool_ b =>
      cases t with
      | np k s => cases k <;> rfl
      | mask k s => cases k <;> rfl
      | sparse s => rfl
  | int z =>
      cases t with
      | np k s => cases k <;> rfl
      | mask k s => cases k <;> rfl
      | sparse s => rfl
  | pdNA =>
      cases t with
      | np k s => rfl
      | mask k s => rfl
      | sparse s => rfl
  | nan => rfl
  | natV k => rfl
  | pdNaT => rfl
  | none_ => rfl
  | float z => rfl
  | obj n => rfl

theorem normNa_isna (v : Val) (h : isna v = true) : normNaVal v = .nan := by
  unfold normNaVal
  rw [if_pos h]

def normNaRows (xss : List (List Val)) : List (List Val) :=
  xss.map (List.map normNaVal)

theorem elems_mapVals (f : Val → Val) (d : ArrData) :
    (d.mapVals f).elems = d.elems.map f := by
  cases d with
  | d1 xs => rfl
  | d2 xss =>
      simp [ArrData.mapVals, ArrData.elems, List.map_flatten]

theorem rows_mapVals (f : Val → Val) (d : ArrData) :
    (d.mapVals f).rows = d.rows.map (List.map f) := by
  cases d with
  | d1 xs => rfl
  | d2 xss => rfl

theorem normNaRows_zipApp2 (a b : List (List Val)) :
    normNaRows (zipApp2 a b) = zipApp2 (normNaRows a) (normNaRows b) := by
  induction a generalizing b with
  | nil => rfl
  | cons r ra ih =>
      cases b with
      | nil => rfl
      | cons s sb =>
          simp only [zipApp2, List.zipWith_cons_cons, normNaRows,
            List.map_cons, List.map_append]
          exact congrArg _ (by simpa [normNaRows, zipApp2] using ih sb)

theorem normNaRows_foldl (t : List (List (List Val))) :
    ∀ h, normNaRows (t.foldl zipApp2 h) =
      (t.map normNaRows).foldl zipApp2 (normNaRows h) := by
  induction t with
  | nil => intro h; rfl
  | cons x xs ih =>
      intro h
      simp only [List.foldl_cons, List.map_cons]
      rw [ih, normNaRows_zipApp2]

theorem normNaRows_concatD2 (ls : List (List (List Val))) :
    normNaRows (concatD2 ls) = concatD2 (ls.map normNaRows) := by
  cases ls with
  | nil => rfl
  | cons h t =>
      show normNaRows (t.foldl zipApp2 h) = _
      rw [normNaRows_foldl]
      rfl

/-- Casting disappears under the normalized view, 2-d concatenation form. -/
theorem norm_concatD2_cast (arrs : List Arr) (t : DType) :
    normNaRows (concatD2 ((arrs.map (castArr t)).map
      (fun a => a.data.rows))) =
    concatD2 (arrs.map (fun a => normNaRows a.data.rows)) := by
  rw [normNaRows_concatD2]
  congr 1
  simp only [List.map_map]
  apply List.map_congr_left
  intro x hx
  simp only [Function.comp_apply, castArr, rows_mapVals]
  simp only [normNaRows, List.map_map]
  apply List.map_congr_left
  intro row hrow
  simp only [Function.comp_apply, List.map_map]
  apply List.map_congr_left
  intro v hv
  exact normNa_castVal v t

/-- Casting disappears under the normalized view, 1-d concatenation form. -/
theorem norm_flatten_cast (arrs : List Arr) (t : DType) :
    (((arrs.map (castArr t)).map (fun a => a.data.elems)).flatten).map
      normNaVal =
    (arrs.map (fun a => a.data.elems.map normNaVal)).flatten := by
  rw [List.map_flatten]
  congr 1
  simp only [List.map_map]
  apply List.map_congr_left
  intro x hx
  simp only [Function.comp_apply, castArr, elems_mapVals, List.map_map]
  apply List.map_congr_left
  intro v hv
  exact normNa_castVal v t

theorem promote2_np_shape (k1 k2 : DKind) (s1 s2 : Nat) :
    ∃ k3 s3, promote2 (.np k1 s1) (.np k2 s2) = .np k3 s3 ∧
      (k3 = DKind.V → (k1 = DKind.V ∧ k2 = DKind.V)) := by
  by_cases heq : (DType.np k1 s1) = (DType.np k2 s2)
  · unfold promote2
    rw [if_pos heq]
    injection heq with hk hs
    exact ⟨k1, s1, rfl, fun h => ⟨h, hk ▸ h⟩⟩
  · unfold promote2
    rw [if_neg heq]
    cases k1 <;> cases k2 <;>
      first
        | exact ⟨_, _, rfl, by decide⟩
        | (dsimp only
           by_cases hs1 : s2 < s1
           · rw [if_pos hs1]
             exact ⟨_, _, rfl, by decide⟩
           · by_cases hs2 : s2 < 8
             · rw [if_neg hs1, if_pos hs2]
               exact ⟨_, _, rfl, by decide⟩
             · rw [if_neg hs1, if_neg hs2]
               exact ⟨_, _, rfl, by decide⟩)
        | (dsimp only
           by_cases hs1 : s1 < s2
           · rw [if_pos hs1]
             exact ⟨_, _, rfl, by decide⟩
           · by_cases hs2 : s1 < 8
             · rw [if_neg hs1, if_pos hs2]
               exact ⟨_, _, rfl, by decide⟩
             · rw [if_neg hs1, if_neg hs2]
               exact ⟨_, _, rfl, by decide⟩)

theorem foldl_promote2_np_nonV (ds : List DType) :
    ∀ (k1 : DKind) (s1 : Nat), ¬ k1 = DKind.V →
    (∀ d ∈ ds, ∃ k s, d = .np k s ∧ ¬ k = DKind.V) →
    ∃ k3 s3, ds.foldl promote2 (.np k1 s1) = .np k3 s3 ∧ ¬ k3 = DKind.V := by
  induction ds with
  | nil => intro k1 s1 h1 _; exact ⟨k1, s1, rfl, h1⟩
  | cons d rest ih =>
      intro k1 s1 h1 hds
      obtain ⟨k2, s2, rfl, h2⟩ := hds d (by simp)
      obtain ⟨ka, sa, hpa, hva⟩ := promote2_np_shape k1 k2 s1 s2
      rw [List.foldl_cons, hpa]
      exact ih ka sa (fun hc => h1 (hva hc).1) (fun x hx => hds x (by simp [hx]))

theorem promote2_iubf (k1 k2 : DKind) (s1 s2 : Nat)
    (h1 : k1.isNumericLike = true) (h2 : k2.isNumericLike = true) :
    ∃ k3 s3, promote2 (.np k1 s1) (.np k2 s2) = .np k3 s3 ∧
      k3.isNumericLike = true := by
  by_cases heq : (DType.np k1 s1) = (DType.np k2 s2)
  · unfold promote2
    rw [if_pos heq]
    exact ⟨k1, s1, rfl, h1⟩
  · unfold promote2
    rw [if_neg heq]
    cases k1 <;> cases k2 <;>
      first
        | exact absurd h1 (by decide)
        | exact absurd h2 (by decide)
        | exact ⟨_, _, rfl, by decide⟩
        | (dsimp only
           by_cases hs1 : s2 < s1
           · rw [if_pos hs1]
             exact ⟨_, _, rfl, by decide⟩
           · by_cases hs2 : s2 < 8
             · rw [if_neg hs1, if_pos hs2]
               exact ⟨_, _, rfl, by decide⟩
             · rw [if_neg hs1, if_neg hs2]
               exact ⟨_, _, rfl, by decide⟩)
        | (dsimp only
           by_cases hs1 : s1 < s2
           · rw [if_pos hs1]
             exact ⟨_, _, rfl, by decide⟩
           · by_cases hs2 : s1 < 8
             · rw [if_neg hs1, if_pos hs2]
               exact ⟨_, _, rfl, by decide⟩
             · rw [if_neg hs1, if_neg hs2]
               exact ⟨_, _, rfl, by decide⟩)

theorem foldl_promote2_iubf (ds : List DType) :
    ∀ (k1 : DKind) (s1 : Nat), k1.isNumericLike = true →
    (∀ d ∈ ds, ∃ k s, d = .np k s ∧ k.isNumericLike = true) →
    ∃ k3 s3, ds.foldl promote2 (.np k1 s1) = .np k3 s3 ∧
      k3.isNumericLike = true := by
  induction ds with
  | nil => intro k1 s1 h1 _; exact ⟨k1, s1, rfl, h1⟩
  | cons d rest ih =>
      intro k1 s1 h1 hds
      obtain ⟨k2, s2, rfl, h2⟩ := hds d (by simp)
      obtain ⟨ka, sa, hpa, hva⟩ := promote2_iubf k1 k2 s1 s2 h1 h2
      rw [List.foldl_cons, hpa]
      exact ih ka sa hva (fun x hx => hds x (by simp [hx]))

theorem exists_cons2 {α : Type} {l : List α} (h : 1 < l.length) :
    ∃ a b t, l = a :: b :: t := by
  cases l with
  | nil => simp at h
  | cons a t =>
      cases t with
      | nil => simp at h
      | cons b t2 => exact ⟨a, b, t2, rfl⟩

theorem blockCls_ext_iff (d : DType) :
    blockClsOf d = BlockCls.extensionCls ↔ d.isExt = true := by
  cases d with
  | np k s => cases k <;> simp [blockClsOf, DType.isExt]
  | mask k s => simp [blockClsOf, DType.isExt]
  | sparse s => simp [blockClsOf, DType.isExt]

theorem uniform_facts {join_units : List JoinUnit}
    (h : _is_uniform_join_units join_units = true) :
    ¬ ((join_units.headD default).block.dtype.kind = DKind.V) ∧
    (∀ ju ∈ join_units, ju.block.cls = (join_units.headD default).block.cls) ∧
    (∀ ju ∈ join_units,
      ju.block.dtype = (join_units.headD default).block.dtype ∨
        ju.block.dtype.kind.isIUB = true) ∧
    (∀ ju ∈ join_units, ju.is_na = true → ju.block.is_extension = true) ∧
    1 < join_units.length := by
  unfold _is_uniform_join_units at h
  by_cases hV : ((join_units.headD default).block.dtype.kind = DKind.V)
  · rw [if_pos hV] at h
    cases h
  · rw [if_neg hV] at h
    simp only [Bool.and_eq_true, List.all_eq_true, Bool.or_eq_true,
      decide_eq_true_eq, Bool.not_eq_eq_eq_not, Bool.not_true,
      decide_eq_false_iff_not, and_assoc] at h
    obtain ⟨hcls, hdt, hna, hlen⟩ := h
    refine ⟨hV, hcls, hdt, ?_, hlen⟩
    intro ju hju hna2
    rcases hna ju hju with hf | ht
    · rw [hna2] at hf
      cases hf
    · exact ht

theorem uniform_no_void (u1 : JoinUnit) (tl : List JoinUnit)
    (hV : ¬ (u1.block.dtype.kind = DKind.V))
    (hdt : ∀ ju ∈ u1 :: tl, ju.block.dtype = u1.block.dtype ∨
      ju.block.dtype.kind.isIUB = true) :
    ∀ ju ∈ u1 :: tl, ¬ (ju.block.dtype.kind = DKind.V) := by
  intro ju hju
  rcases hdt ju hju with heq | hiub
  · rw [heq]
    exact hV
  · exact isIUB_ne_V hiub

theorem uniform_ext_eq (u1 : JoinUnit) (tl : List JoinUnit)
    (hcls : ∀ ju ∈ u1 :: tl, ju.block.cls = u1.block.cls) :
    ∀ ju ∈ u1 :: tl, ju.block.dtype.isExt = u1.block.dtype.isExt := by
  intro ju hju
  have h := hcls ju hju
  cases hje : ju.block.dtype.isExt <;> cases hfe : u1.block.dtype.isExt
  · rfl
  · have : ju.block.dtype.isExt = true :=
      (blockCls_ext_iff _).mp (h.trans ((blockCls_ext_iff _).mpr hfe))
    rw [hje] at this
    cases this
  · have : u1.block.dtype.isExt = true :=
      (blockCls_ext_iff _).mp (h.symm.trans ((blockCls_ext_iff _).mpr hje))
    rw [hfe] at this
    cases this
  · rfl

theorem allna_map_norm (xs : List Val) (h : xs.all isna = true) :
    xs.map normNaVal = List.replicate xs.length Val.nan := by
  induction xs with
  | nil => rfl
  | cons v vs ih =>
      simp only [List.all_cons, Bool.and_eq_true] at h
      simp only [List.map_cons, List.length_cons, List.replicate_succ]
      rw [normNa_isna v h.1, ih h.2]

theorem nonna_unit_reindexed (u : JoinUnit) (E : DType) (V2 : Val)
    (hna : u.is_na = false) :
    (u.get_reindexed_values E V2).data = u.block.values.data ∧
      (u.get_reindexed_values E V2).dtype.isExt = u.block.dtype.isExt := by
  have hvalid : u.isValidNaFor E = false := by
    unfold JoinUnit.isValidNaFor
    rw [if_pos (by simp [hna])]
  unfold JoinUnit.get_reindexed_values
  by_cases h1 : (V2 = Val.none_ ∧ ¬ (u.block.dtype.kind = DKind.V))
  · rw [if_pos h1]
    exact ⟨rfl, rfl⟩
  · rw [if_neg h1, if_neg (by simp [hvalid])]
    by_cases h2 : u.block.can_consolidate = true
    · rw [if_neg (not_not_intro h2)]
      by_cases h3 : u.block.is_bool = true
      · rw [if_pos h3]
        refine ⟨rfl, ?_⟩
        unfold Block.is_bool at h3
        cases hd : u.block.dtype with
        | np k s => rfl
        | mask k s =>
            rw [hd] at h3
            dsimp only at h3
            cases h3
        | sparse s =>
            rw [hd] at h3
            dsimp only at h3
            cases h3
      · rw [if_neg h3]
        exact ⟨rfl, rfl⟩
    · rw [if_pos h2]
      exact ⟨rfl, rfl⟩

theorem extNaValue_isna (E : DType) : isna E.extNaValue = true := by
  cases E <;> rfl

theorem extNaValue_ne_none (E : DType) : ¬ (E.extNaValue = Val.none_) := by
  cases E <;> simp [DType.extNaValue]

theorem needs_i8_ext_false (E : DType) (hE : E.isExt = true)
    (hEm : ∀ k s, E = DType.mask k s → k.isNumericLike = true) :
    needs_i8_conversion E = false := by
  cases E with
  | np k s => simp [DType.isExt] at hE
  | mask k s =>
      have hk := hEm k s rfl
      cases k <;> first | rfl | exact absurd hk (by decide)
  | sparse s => rfl

theorem ext_na_valid (v : Val) (hv : isna v = true)
    (hvn : ¬ (v = Val.pdNaT)) (hvM : ¬ (v = Val.natV DKind.M))
    (hvm : ¬ (v = Val.natV DKind.m))
    (E : DType) (hE : E.isExt = true)
    (hEm : ∀ k s, E = DType.mask k s → k.isNumericLike = true) :
    is_valid_na_for_dtype v E = true := by
  unfold is_valid_na_for_dtype
  rw [if_neg (by simp [isScalarV, hv])]
  cases E with
  | np k s => simp [DType.isExt] at hE
  | mask k s =>
      cases k <;> simp [DType.kind, hvn, hvM, hvm]
  | sparse s => simp [DType.kind, hvn, hvM, hvm]

theorem ext_na_unit_valid (u : JoinUnit) (hna : u.is_na = true)
    (hue : u.block.dtype.isExt = true)
    (E : DType) (hE : E.isExt = true)
    (hEm : ∀ k s, E = DType.mask k s → k.isNumericLike = true) :
    u.isValidNaFor E = true := by
  unfold JoinUnit.isValidNaFor
  rw [if_neg (by simp [hna])]
  by_cases hV : u.block.dtype.kind = DKind.V
  · rw [if_pos hV]
  · rw [if_neg hV]
    have hO : ¬ (u.block.dtype = DType.np DKind.O 8) := by
      intro hc
      rw [hc] at hue
      simp [DType.isExt] at hue
    rw [if_neg hO]
    have hni : needs_i8_conversion E = false := needs_i8_ext_false E hE hEm
    have hfv : u.block.fill_value = Val.pdNA ∨ u.block.fill_value = Val.nan := by
      cases hd : u.block.dtype with
      | np k s =>
          rw [hd] at hue
          simp [DType.isExt] at hue
      | mask k s =>
          left
          show u.block.dtype.fillValue = _
          rw [hd]
          rfl
      | sparse s =>
          right
          show u.block.dtype.fillValue = _
          rw [hd]
          rfl
    dsimp only
    rcases hfv with hf | hf <;> rw [hf]
    · rw [if_neg (by simp), if_neg (by simp [hni])]
      exact ext_na_valid Val.pdNA rfl (by simp) (by simp) (by simp) E hE hEm
    · rw [if_neg (by simp), if_neg (by simp)]
      exact ext_na_valid Val.nan rfl (by simp) (by simp) (by simp) E hE hEm

theorem ext_unit_reindexed (u : JoinUnit) (xs : List Val)
    (hd : u.block.values.data = ArrData.d1 xs)
    (hue : u.block.dtype.isExt = true)
    (hV : ¬ (u.block.dtype.kind = DKind.V))
    (E : DType) (hE : E.isExt = true)
    (hEm : ∀ k s, E = DType.mask k s → k.isNumericLike = true) :
    ∃ ys, (u.get_reindexed_values E E.extNaValue).data = ArrData.d1 ys ∧
      ys.map normNaVal = xs.map normNaVal ∧
      (u.get_reindexed_values E E.extNaValue).dtype.isExt = true := by
  by_cases hna : u.is_na = true
  · unfold JoinUnit.get_reindexed_values
    rw [if_neg (by intro hc; exact extNaValue_ne_none E hc.1)]
    rw [if_pos (ext_na_unit_valid u hna hue E hE hEm)]
    have hO : ¬ (u.block.dtype = DType.np DKind.O 8) := by
      intro hc
      rw [hc] at hue
      simp [DType.isExt] at hue
    dsimp only
    rw [if_neg hO]
    have hsh : u.block.shape = (1, xs.length) := by
      unfold Block.shape
      rw [hd]
    have hxs : xs.all isna = true := by
      have h0 := is_na_all_elems u hV hna
      rw [hd] at h0
      exact h0
    refine ⟨List.replicate xs.length E.extNaValue, ?_, ?_, ?_⟩
    · rw [hsh]
      unfold make_na_array
      rw [if_pos (show is_1d_only_ea_dtype E = true from hE)]
    · rw [allna_map_norm xs hxs, List.map_replicate,
        normNa_isna _ (extNaValue_isna E)]
    · rw [hsh]
      unfold make_na_array
      rw [if_pos (show is_1d_only_ea_dtype E = true from hE)]
      exact hE
  · have hb := nonna_unit_reindexed u E E.extNaValue (Bool.eq_false_iff.mpr hna)
    refine ⟨xs, ?_, rfl, ?_⟩
    · rw [hb.1, hd]
    · rw [hb.2]
      exact hue

theorem fct_ext (d : DType) (rest : List DType)
    (hext : ∀ x ∈ d :: rest, x.isExt = true)
    (hm : ∀ x ∈ d :: rest, ∀ k s, x = DType.mask k s →
      k.isNumericLike = true) :
    (find_common_type (d :: rest)).isExt = true ∧
      ∀ k s, find_common_type (d :: rest) = DType.mask k s →
        k.isNumericLike = true := by
  have hfct : find_common_type (d :: rest) =
      (if rest.all (fun x => decide (x = d)) then d
       else if (d :: rest).all DType.isNumpy then npPromoteList (d :: rest)
       else if (d :: rest).any DType.isSparse then DType.sparse 8
       else if (d :: rest).all (fun x => x.isNumpy || x.isMask) then
         maskJoin (d :: rest)
       else .np .O 8) := rfl
  rw [hfct]
  by_cases h1 : rest.all (fun x => decide (x = d)) = true
  · rw [if_pos h1]
    exact ⟨hext d (by simp), hm d (by simp)⟩
  · rw [if_neg h1]
    have hnnp : ¬ ((d :: rest).all DType.isNumpy = true) := by
      intro hc
      have hc1 := List.all_eq_true.mp hc d (by simp)
      have he1 := hext d (by simp)
      cases d <;> simp [DType.isNumpy, DType.isExt] at hc1 he1
    rw [if_neg hnnp]
    by_cases h3 : (d :: rest).any DType.isSparse = true
    · rw [if_pos h3]
      exact ⟨rfl, fun k s h => by cases h⟩
    · rw [if_neg h3]
      have h3f := List.any_eq_false.mp (Bool.eq_false_iff.mpr h3)
      have hmask : ∀ x ∈ d :: rest, ∃ k s, x = DType.mask k s ∧
          k.isNumericLike = true := by
        intro x hx
        have hxe := hext x hx
        have hxs := h3f x hx
        cases hdx : x with
        | np k s =>
            rw [hdx] at hxe
            simp [DType.isExt] at hxe
        | mask k s => exact ⟨k, s, rfl, hm x hx k s hdx⟩
        | sparse s =>
            rw [hdx] at hxs
            simp [DType.isSparse] at hxs
      have h4 : (d :: rest).all (fun x => x.isNumpy || x.isMask) = true := by
        simp only [List.all_eq_true, Bool.or_eq_true]
        intro x hx
        obtain ⟨k, s, rfl, _⟩ := hmask x hx
        right
        rfl
      rw [if_pos h4]
      obtain ⟨k0, s0, rfl, hk0⟩ := hmask d (by simp)
      unfold maskJoin
      simp only [List.map_cons]
      rw [show DType.toNumpy (DType.mask k0 s0) = DType.np k0 s0 from rfl]
      rw [show npPromoteList (DType.np k0 s0 :: rest.map DType.toNumpy) =
        (rest.map DType.toNumpy).foldl promote2 (DType.np k0 s0) from rfl]
      obtain ⟨k3, s3, hp, hk3⟩ := foldl_promote2_iubf (rest.map DType.toNumpy)
        k0 s0 hk0 (by
          intro x hx
          obtain ⟨y, hy, rfl⟩ := List.mem_map.mp hx
          obtain ⟨k, s, hyy, hk⟩ := hmask y (by simp [hy])
          exact ⟨k, s, by rw [hyy]; rfl, hk⟩)
      rw [hp]
      dsimp only
      rw [if_pos hk3]
      refine ⟨rfl, fun k s h => ?_⟩
      injection h with h1 h2
      rw [← h1]
      exact hk3

theorem fct_ext_list (ds : List DType) (hne : ds ≠ [])
    (hext : ∀ x ∈ ds, x.isExt = true)
    (hm : ∀ x ∈ ds, ∀ k s, x = DType.mask k s → k.isNumericLike = true) :
    (find_common_type ds).isExt = true ∧
      ∀ k s, find_common_type ds = DType.mask k s → k.isNumericLike = true := by
  obtain ⟨d, rest, rfl⟩ := exists_cons hne
  exact fct_ext d rest hext hm

theorem fct_np_nonV (ds : List DType) (hne : ds ≠ [])
    (hnp : ∀ x ∈ ds, ∃ k s, x = DType.np k s ∧ ¬ (k = DKind.V)) :
    ∃ kE sE, find_common_type ds = DType.np kE sE ∧ ¬ (kE = DKind.V) := by
  obtain ⟨d, rest, rfl⟩ := exists_cons hne
  have hfct : find_common_type (d :: rest) =
      (if rest.all (fun x => decide (x = d)) then d
       else if (d :: rest).all DType.isNumpy then npPromoteList (d :: rest)
       else if (d :: rest).any DType.isSparse then DType.sparse 8
       else if (d :: rest).all (fun x => x.isNumpy || x.isMask) then
         maskJoin (d :: rest)
       else .np .O 8) := rfl
  rw [hfct]
  by_cases h1 : rest.all (fun x => decide (x = d)) = true
  · rw [if_pos h1]
    exact hnp d (by simp)
  · rw [if_neg h1]
    have h2 : (d :: rest).all DType.isNumpy = true := by
      simp only [List.all_eq_true]
      intro x hx
      obtain ⟨k, s, rfl, _⟩ := hnp x hx
      rfl
    rw [if_pos h2]
    obtain ⟨k0, s0, rfl, hk0⟩ := hnp d (by simp)
    rw [show npPromoteList (DType.np k0 s0 :: rest) =
      rest.foldl promote2 (DType.np k0 s0) from rfl]
    exact foldl_promote2_np_nonV rest k0 s0 hk0
      (fun x hx => hnp x (by simp [hx]))

theorem dtype_to_na_value_np_some (k : DKind) (s : Nat) (hnb : Bool)
    (hk : ¬ (k = DKind.V)) :
    ∃ v, _dtype_to_na_value (DType.np k s) hnb = some v := by
  unfold _dtype_to_na_value
  rw [if_neg (by simp [DType.isExt])]
  cases k with
  | i =>
      cases hnb
      · exact ⟨Val.none_, rfl⟩
      · exact ⟨Val.nan, rfl⟩
  | u =>
      cases hnb
      · exact ⟨Val.none_, rfl⟩
      · exact ⟨Val.nan, rfl⟩
  | b => exact ⟨Val.none_, rfl⟩
  | f => exact ⟨Val.nan, rfl⟩
  | c => exact ⟨Val.nan, rfl⟩
  | M => exact ⟨Val.natV DKind.M, rfl⟩
  | m => exact ⟨Val.natV DKind.m, rfl⟩
  | O => exact ⟨Val.nan, rfl⟩
  | V => exact absurd rfl hk

theorem getEmptyDtype_ext (u1 u2 : JoinUnit) (rest : List JoinUnit)
    (hext : ∀ u ∈ u1 :: u2 :: rest, u.block.dtype.isExt = true)
    (hm : ∀ u ∈ u1 :: u2 :: rest, ∀ k s, u.block.dtype = DType.mask k s →
      k.isNumericLike = true)
    (hVall : ∀ u ∈ u1 :: u2 :: rest, ¬ (u.block.dtype.kind = DKind.V)) :
    (_get_empty_dtype (u1 :: u2 :: rest)).isExt = true ∧
      ∀ k s, _get_empty_dtype (u1 :: u2 :: rest) = DType.mask k s →
        k.isNumericLike = true := by
  unfold _get_empty_dtype
  rw [if_neg (by simp)]
  by_cases h2 : dtypes_all_equal ((u1 :: u2 :: rest).map
      (fun ju => ju.block.dtype)) = true
  · rw [if_pos h2]
    simp only [List.headD_cons]
    exact ⟨hext u1 (by simp), hm u1 (by simp)⟩
  · rw [if_neg h2]
    have hnb : ¬ (((u1 :: u2 :: rest).any
        (fun unit => decide (unit.block.dtype.kind = DKind.V))) = true) := by
      intro hc
      obtain ⟨u, hu, hv⟩ := List.any_eq_true.mp hc
      simp only [decide_eq_true_eq] at hv
      exact hVall u hu hv
    rw [if_neg hnb]
    by_cases h5 : ((((u1 :: u2 :: rest).filter (fun ju => ¬ ju.is_na)).map
        (fun ju => ju.block.dtype)).isEmpty) = true
    · rw [if_pos h5]
      have hfeq : ((u1 :: u2 :: rest).filter
          (fun ju => ¬ (ju.block.dtype.kind = DKind.V))) =
            u1 :: u2 :: rest :=
        List.filter_eq_self.mpr (by
          intro u hu
          simp only [decide_eq_true_eq]
          exact hVall u hu)
      rw [hfeq]
      refine fct_ext_list _ (by simp) ?_ ?_
      · intro x hx
        obtain ⟨u, hu, rfl⟩ := List.mem_map.mp hx
        exact hext u hu
      · intro x hx
        obtain ⟨u, hu, rfl⟩ := List.mem_map.mp hx
        exact hm u hu
    · rw [if_neg h5]
      refine fct_ext_list _ (fun hc => h5 (by rw [hc]; rfl)) ?_ ?_
      · intro x hx
        obtain ⟨u, hu, rfl⟩ := List.mem_map.mp hx
        exact hext u (List.mem_of_mem_filter hu)
      · intro x hx
        obtain ⟨u, hu, rfl⟩ := List.mem_map.mp hx
        exact hm u (List.mem_of_mem_filter hu)

theorem getEmptyDtype_np (u1 u2 : JoinUnit) (rest : List JoinUnit)
    (hnp : ∀ u ∈ u1 :: u2 :: rest, ∃ k s, u.block.dtype = DType.np k s ∧
      ¬ (k = DKind.V))
    (hnona : ∀ u ∈ u1 :: u2 :: rest, u.is_na = false) :
    ∃ kE sE, _get_empty_dtype (u1 :: u2 :: rest) = DType.np kE sE ∧
      ¬ (kE = DKind.V) := by
  unfold _get_empty_dtype
  rw [if_neg (by simp)]
  by_cases h2 : dtypes_all_equal ((u1 :: u2 :: rest).map
      (fun ju => ju.block.dtype)) = true
  · rw [if_pos h2]
    simpa using hnp u1 (by simp)
  · rw [if_neg h2]
    have hnb : ¬ (((u1 :: u2 :: rest).any
        (fun unit => decide (unit.block.dtype.kind = DKind.V))) = true) := by
      intro hc
      obtain ⟨u, hu, hv⟩ := List.any_eq_true.mp hc
      simp only [decide_eq_true_eq] at hv
      obtain ⟨k, s, hdd, hk⟩ := hnp u hu
      rw [hdd] at hv
      exact hk hv
    rw [if_neg hnb]
    have hfilter : ((u1 :: u2 :: rest).filter (fun ju => ¬ ju.is_na)) =
        u1 :: u2 :: rest :=
      List.filter_eq_self.mpr (by
        intro u hu
        simp [hnona u hu])
    rw [hfilter]
    rw [if_neg (by simp)]
    refine fct_np_nonV _ (by simp) ?_
    intro x hx
    obtain ⟨u, hu, rfl⟩ := List.mem_map.mp hx
    exact hnp u hu

theorem concat_compat_d2_norm (arrs : List Arr) :
    (concat_compat arrs 1 false).data.mapVals normNaVal =
      ArrData.d2 (concatD2 (arrs.map (fun a => normNaRows a.data.rows))) := by
  unfold concat_compat
  rw [if_neg (show ¬ ((false = true) ∨ (1 = 0)) by simp)]
  exact congrArg ArrData.d2 (norm_concatD2_cast arrs _)

theorem ea_concat_norm (arrs : List Arr) (axis : Nat) :
    (ensure_block_shape2 (concat_compat arrs axis true)).data.mapVals
        normNaVal =
      ArrData.d2 [(arrs.map (fun a => a.data.elems.map normNaVal)).flatten] := by
  unfold concat_compat
  rw [if_pos (show (true = true) ∨ (axis = 0) from Or.inl rfl)]
  exact congrArg (fun l => ArrData.d2 [l]) (norm_flatten_cast arrs _)

theorem fastPath_np_norm (u1 : JoinUnit) (tl : List JoinUnit)
    (hne1 : u1.block.dtype.isExt = false) :
    (fastPathValues (u1 :: tl)).data.mapVals normNaVal =
      ArrData.d2 (concatD2 ((u1 :: tl).map
        (fun u => normNaRows u.block.values.data.rows))) := by
  unfold fastPathValues
  simp only [List.headD_cons]
  rw [if_pos (show ¬ (u1.block.is_extension = true) by
    simp [Block.is_extension, hne1])]
  unfold npConcatenate
  refine (congrArg ArrData.d2 (norm_concatD2_cast
    ((u1 :: tl).map (fun ju => ju.block.values)) _)).trans ?_
  refine congrArg (fun l => ArrData.d2 (concatD2 l)) ?_
  rw [List.map_map]
  rfl

theorem fastPath_ext_norm (u1 : JoinUnit) (tl : List JoinUnit)
    (hext1 : u1.block.dtype.isExt = true) :
    (fastPathValues (u1 :: tl)).data.mapVals normNaVal =
      ArrData.d2 [((u1 :: tl).map
        (fun u => u.block.values.data.elems.map normNaVal)).flatten] := by
  unfold fastPathValues
  simp only [List.headD_cons]
  rw [if_neg (show ¬ ¬ (u1.block.is_extension = true) by
    simp [Block.is_extension, hext1])]
  rw [if_pos (show is_1d_only_ea_dtype u1.block.dtype = true from hext1)]
  rw [ea_concat_norm]
  refine congrArg (fun l => ArrData.d2 [List.flatten l]) ?_
  rw [List.map_map]
  rfl

theorem concat_join_units_np_norm (u1 u2 : JoinUnit) (rest : List JoinUnit)
    (copy : Bool)
    (hnp : ∀ u ∈ u1 :: u2 :: rest, ∃ k s, u.block.dtype = DType.np k s ∧
      ¬ (k = DKind.V))
    (hnona : ∀ u ∈ u1 :: u2 :: rest, u.is_na = false) :
    (_concatenate_join_units (u1 :: u2 :: rest) copy).map
        (fun g => g.data.mapVals normNaVal) =
      some (ArrData.d2 (concatD2 ((u1 :: u2 :: rest).map
        (fun u => normNaRows u.block.values.data.rows)))) := by
  obtain ⟨kE, sE, hE, hkE⟩ := getEmptyDtype_np u1 u2 rest hnp hnona
  obtain ⟨V2, hU⟩ := dtype_to_na_value_np_some kE sE
    ((u1 :: u2 :: rest).any
      (fun unit => decide (unit.block.dtype.kind = DKind.V))) hkE
  have hents : ∀ u ∈ u1 :: u2 :: rest,
      is_1d_only_ea_dtype
        (u.get_reindexed_values (DType.np kE sE) V2).dtype = false := by
    intro u hu
    show (u.get_reindexed_values (DType.np kE sE) V2).dtype.isExt = false
    rw [(nonna_unit_reindexed u (DType.np kE sE) V2 (hnona u hu)).2]
    obtain ⟨k, s, hdd, _⟩ := hnp u hu
    rw [hdd]
    rfl
  have hmain : _concatenate_join_units (u1 :: u2 :: rest) copy =
      some (concat_compat ((u1 :: u2 :: rest).map
        (fun ju => ju.get_reindexed_values (DType.np kE sE) V2)) 1 false) := by
    unfold _concatenate_join_units
    rw [hE]
    dsimp only
    rw [hU]
    dsimp only
    simp only [List.map_cons]
    rw [if_neg (show ¬ ((u1.get_reindexed_values (DType.np kE sE) V2 ::
        u2.get_reindexed_values (DType.np kE sE) V2 ::
        rest.map (fun ju => ju.get_reindexed_values (DType.np kE sE) V2)).any
          (fun t => is_1d_only_ea_dtype t.dtype) = true) by
      intro hc
      obtain ⟨a, ha, hav⟩ := List.any_eq_true.mp hc
      rw [show (u1.get_reindexed_values (DType.np kE sE) V2 ::
          u2.get_reindexed_values (DType.np kE sE) V2 ::
          rest.map (fun ju => ju.get_reindexed_values (DType.np kE sE) V2)) =
            (u1 :: u2 :: rest).map
              (fun ju => ju.get_reindexed_values (DType.np kE sE) V2) by
        simp only [List.map_cons]] at ha
      obtain ⟨u, hu, rfl⟩ := List.mem_map.mp ha
      rw [hents u hu] at hav
      cases hav)]
  rw [hmain]
  show some ((concat_compat ((u1 :: u2 :: rest).map
    (fun ju => ju.get_reindexed_values (DType.np kE sE) V2))
      1 false).data.mapVals normNaVal) = _
  rw [concat_compat_d2_norm]
  refine congrArg (fun l => some (ArrData.d2 (concatD2 l))) ?_
  rw [List.map_map]
  apply List.map_congr_left
  intro u hu
  show normNaRows (u.get_reindexed_values (DType.np kE sE) V2).data.rows =
    normNaRows u.block.values.data.rows
  rw [(nonna_unit_reindexed u (DType.np kE sE) V2 (hnona u hu)).1]

theorem concat_join_units_ext_norm (u1 u2 : JoinUnit) (rest : List JoinUnit)
    (copy : Bool)
    (hext : ∀ u ∈ u1 :: u2 :: rest, u.block.dtype.isExt = true)
    (hm : ∀ u ∈ u1 :: u2 :: rest, ∀ k s, u.block.dtype = DType.mask k s →
      k.isNumericLike = true)
    (hVall : ∀ u ∈ u1 :: u2 :: rest, ¬ (u.block.dtype.kind = DKind.V))
    (hdims : ∀ u ∈ u1 :: u2 :: rest, ∃ xs,
      u.block.values.data = ArrData.d1 xs) :
    (_concatenate_join_units (u1 :: u2 :: rest) copy).map
        (fun g => g.data.mapVals normNaVal) =
      some (ArrData.d2 [((u1 :: u2 :: rest).map
        (fun u => u.block.values.data.elems.map normNaVal)).flatten]) := by
  obtain ⟨hEe, hEm⟩ := getEmptyDtype_ext u1 u2 rest hext hm hVall
  have hU : _dtype_to_na_value (_get_empty_dtype (u1 :: u2 :: rest))
      ((u1 :: u2 :: rest).any
        (fun unit => decide (unit.block.dtype.kind = DKind.V))) =
      some (_get_empty_dtype (u1 :: u2 :: rest)).extNaValue := by
    unfold _dtype_to_na_value
    rw [if_pos hEe]
  have hall1d : ∀ t ∈ (u1 :: u2 :: rest).map
      (fun ju => ju.get_reindexed_values (_get_empty_dtype (u1 :: u2 :: rest))
        (_get_empty_dtype (u1 :: u2 :: rest)).extNaValue),
      is_1d_only_ea_dtype t.dtype = true := by
    intro t ht
    obtain ⟨u, hu, rfl⟩ := List.mem_map.mp ht
    obtain ⟨xs, hd⟩ := hdims u hu
    obtain ⟨ys, hy1, hy2, hy3⟩ := ext_unit_reindexed u xs hd (hext u hu)
      (hVall u hu) _ hEe hEm
    exact hy3
  have hmain : _concatenate_join_units (u1 :: u2 :: rest) copy =
      some (ensure_block_shape2 (concat_compat ((u1 :: u2 :: rest).map
        (fun ju => ju.get_reindexed_values (_get_empty_dtype (u1 :: u2 :: rest))
          (_get_empty_dtype (u1 :: u2 :: rest)).extNaValue)) 0 true)) := by
    unfold _concatenate_join_units
    dsimp only
    rw [hU]
    dsimp only
    simp only [List.map_cons]
    rw [if_pos (show ((u1.get_reindexed_values
        (_get_empty_dtype (u1 :: u2 :: rest))
        (_get_empty_dtype (u1 :: u2 :: rest)).extNaValue ::
      u2.get_reindexed_values (_get_empty_dtype (u1 :: u2 :: rest))
        (_get_empty_dtype (u1 :: u2 :: rest)).extNaValue ::
      rest.map (fun ju => ju.get_reindexed_values
        (_get_empty_dtype (u1 :: u2 :: rest))
        (_get_empty_dtype (u1 :: u2 :: rest)).extNaValue)).any
          (fun t => is_1d_only_ea_dtype t.dtype) = true) by
      rw [List.any_cons,
        hall1d _ (List.mem_map_of_mem _ (by simp : u1 ∈ u1 :: u2 :: rest)),
        Bool.true_or])]
    have hmem : ∀ t ∈ (u1.get_reindexed_values
        (_get_empty_dtype (u1 :: u2 :: rest))
        (_get_empty_dtype (u1 :: u2 :: rest)).extNaValue ::
      u2.get_reindexed_values (_get_empty_dtype (u1 :: u2 :: rest))
        (_get_empty_dtype (u1 :: u2 :: rest)).extNaValue ::
      rest.map (fun ju => ju.get_reindexed_values
        (_get_empty_dtype (u1 :: u2 :: rest))
        (_get_empty_dtype (u1 :: u2 :: rest)).extNaValue)),
        is_1d_only_ea_dtype t.dtype = true := by
      intro t ht
      apply hall1d
      simp only [List.map_cons]
      exact ht
    have hid := (List.map_congr_left
      (l := u1.get_reindexed_values (_get_empty_dtype (u1 :: u2 :: rest))
          (_get_empty_dtype (u1 :: u2 :: rest)).extNaValue ::
        u2.get_reindexed_values (_get_empty_dtype (u1 :: u2 :: rest))
          (_get_empty_dtype (u1 :: u2 :: rest)).extNaValue ::
        rest.map (fun ju => ju.get_reindexed_values
          (_get_empty_dtype (u1 :: u2 :: rest))
          (_get_empty_dtype (u1 :: u2 :: rest)).extNaValue))
      (f := fun t => if is_1d_only_ea_dtype t.dtype = true then t
        else ⟨t.dtype, ArrData.d1 (t.data.rows.headD [])⟩) (g := id)
      (fun t ht => by simp [hmem t ht])).trans (List.map_id _)
    simp only [List.map_cons] at hid
    rw [hid]
  rw [hmain]
  show some ((ensure_block_shape2 (concat_compat ((u1 :: u2 :: rest).map
    (fun ju => ju.get_reindexed_values (_get_empty_dtype (u1 :: u2 :: rest))
      (_get_empty_dtype (u1 :: u2 :: rest)).extNaValue)) 0 true)).data.mapVals
        normNaVal) = _
  rw [ea_concat_norm]
  refine congrArg (fun l => some (ArrData.d2 [List.flatten l])) ?_
  rw [List.map_map]
  apply List.map_congr_left
  intro u hu
  obtain ⟨xs, hd⟩ := hdims u hu
  obtain ⟨ys, hy1, hy2, hy3⟩ := ext_unit_reindexed u xs hd (hext u hu)
    (hVall u hu) _ hEe hEm
  show (u.get_reindexed_values (_get_empty_dtype (u1 :: u2 :: rest))
    (_get_empty_dtype (u1 :: u2 :: rest)).extNaValue).data.elems.map
      normNaVal = u.block.values.data.elems.map normNaVal
  rw [hy1, hd]
  exact hy2

/-- C6 counterexample: the three-unit group `[sparse float64 (empty),
masked Int64 (all NA), masked UInt32 ([3])]` satisfies
`_is_uniform_join_units`, but the two paths disagree: the fast native path
unifies all unit dtypes (the sparse participant absorbs the result into the
sparse family, whose missing marker is `nan`) and assembles
`[[nan, 3.0]]`, while the generic `_concatenate_join_units` path unifies
only the not-all-missing units' dtypes (masked UInt32, whose missing marker
is `pd.NA`) and assembles `[[pd.NA, 3]]`.  The assembled values are not
element-wise identical: the missing slot holds two different missing
markers, a difference that survives even numeric coercion of the value
slots, refuting the claimed equivalence. -/
theorem fast_path_equiv_counterexample :
    _is_uniform_join_units
        [⟨⟨⟨.sparse 8, .d1 []⟩, [0]⟩⟩,
         ⟨⟨⟨.mask .i 8, .d1 [.pdNA]⟩, [1]⟩⟩,
         ⟨⟨⟨.mask .u 4, .d1 [.int 3]⟩, [2]⟩⟩] = true ∧
    fastPathValues
        [⟨⟨⟨.sparse 8, .d1 []⟩, [0]⟩⟩,
         ⟨⟨⟨.mask .i 8, .d1 [.pdNA]⟩, [1]⟩⟩,
         ⟨⟨⟨.mask .u 4, .d1 [.int 3]⟩, [2]⟩⟩] =
      ⟨.sparse 8, .d2 [[.nan, .float 3]]⟩ ∧
    _concatenate_join_units
        [⟨⟨⟨.sparse 8, .d1 []⟩, [0]⟩⟩,
         ⟨⟨⟨.mask .i 8, .d1 [.pdNA]⟩, [1]⟩⟩,
         ⟨⟨⟨.mask .u 4, .d1 [.int 3]⟩, [2]⟩⟩] false =
      some ⟨.mask .u 4, .d2 [[.pdNA, .int 3]]⟩ ∧
    ¬ ((ArrData.d2 [[Val.pdNA, Val.int 3]]).mapVals normVal =
        (ArrData.d2 [[Val.nan, Val.float 3]]).mapVals normVal) :=
  ⟨rfl, rfl, rfl, by decide⟩

/-- C6 (amended): for every group that satisfies `_is_uniform_join_units`
(with extension-array blocks backed by one-dimensional storage and masked
dtypes drawn from the numeric/boolean masked family, as in pandas), the fast
native-concatenation path and the generic `_concatenate_join_units` path
assemble element-wise identical values up to the unified reading of missing
markers and numeric coercion (`normNaVal`): the generic path succeeds, and
both assembled arrays normalize to the same elements in the same positions.
The result dtypes (and hence the exact missing-marker and numeric
representations) may differ, as the counterexample shows. -/
theorem fast_path_equiv_amended (join_units : List JoinUnit) (copy : Bool)
    (huni : _is_uniform_join_units join_units = true)
    (hdims : ∀ u ∈ join_units, u.block.dtype.isExt = true →
      ∃ xs, u.block.values.data = ArrData.d1 xs)
    (hmask : ∀ u ∈ join_units, ∀ k s, u.block.dtype = DType.mask k s →
      k.isNumericLike = true) :
    (_concatenate_join_units join_units copy).map
        (fun g => g.data.mapVals normNaVal) =
      some ((fastPathValues join_units).data.mapVals normNaVal) := by
  obtain ⟨hV, hcls, hdt, hna, hlen⟩ := uniform_facts huni
  obtain ⟨u1, u2, rest, rfl⟩ := exists_cons2 hlen
  simp only [List.headD_cons] at hV hcls hdt
  by_cases hext1 : u1.block.dtype.isExt = true
  · have hextall : ∀ u ∈ u1 :: u2 :: rest, u.block.dtype.isExt = true := by
      intro u hu
      rw [uniform_ext_eq u1 (u2 :: rest) hcls u hu, hext1]
    have hVall := uniform_no_void u1 (u2 :: rest) hV hdt
    rw [concat_join_units_ext_norm u1 u2 rest copy hextall hmask hVall
      (fun u hu => hdims u hu (hextall u hu))]
    rw [fastPath_ext_norm u1 (u2 :: rest) hext1]
  · have hnextall : ∀ u ∈ u1 :: u2 :: rest,
        u.block.dtype.isExt = false := by
      intro u hu
      rw [uniform_ext_eq u1 (u2 :: rest) hcls u hu]
      exact Bool.eq_false_iff.mpr hext1
    have hVall := uniform_no_void u1 (u2 :: rest) hV hdt
    have hnona : ∀ u ∈ u1 :: u2 :: rest, u.is_na = false := by
      intro u hu
      cases hna2 : u.is_na
      · rfl
      · have h2 : u.block.dtype.isExt = true := hna u hu hna2
        rw [hnextall u hu] at h2
        exact absurd h2 Bool.false_ne_true
    have hnp : ∀ u ∈ u1 :: u2 :: rest, ∃ k s,
        u.block.dtype = DType.np k s ∧ ¬ (k = DKind.V) := by
      intro u hu
      have hnv := hVall u hu
      have hx := hnextall u hu
      cases hd : u.block.dtype with
      | np k s =>
          refine ⟨k, s, rfl, ?_⟩
          rw [hd] at hnv
          simpa [DType.kind] using hnv
      | mask k s =>
          rw [hd] at hx
          simp [DType.isExt] at hx
      | sparse s =>
          rw [hd] at hx
          simp [DType.isExt] at hx
    rw [concat_join_units_np_norm u1 u2 rest copy hnp hnona]
    rw [fastPath_np_norm u1 (u2 :: rest) (Bool.eq_false_iff.mpr hext1)]

theorem fast_path_equiv_amended_witness :
    (_concatenate_join_units
        [⟨⟨⟨.np .i 8, .d2 [[.int 1]]⟩, [0]⟩⟩,
         ⟨⟨⟨.np .u 8, .d2 [[.int 2]]⟩, [1]⟩⟩] false).map
        (fun g => g.data.mapVals normNaVal) =
      some ((fastPathValues
        [⟨⟨⟨.np .i 8, .d2 [[.int 1]]⟩, [0]⟩⟩,
         ⟨⟨⟨.np .u 8, .d2 [[.int 2]]⟩, [1]⟩⟩]).data.mapVals normNaVal) :=
  fast_path_equiv_amended _ false (by decide)
    (by
      intro u hu hx
      simp only [List.mem_cons, List.not_mem_nil, or_false] at hu
      rcases hu with rfl | rfl <;> exact absurd hx (by decide))
    (by
      intro u hu k s hx
      simp only [List.mem_cons, List.not_mem_nil, or_false] at hu
      rcases hu with rfl | rfl <;> exact DType.noConfusion hx)
